import Mathlib

/-! # Timed Petri nets as DEVS atomic models

A shallow embedding of the two atomic models of the repository, the place
(`pnPlace.cpp`) and the transition (`pnTrans.cpp`), followed by the properties
proved about them.

Conventions of the embedding.

* Message values (`Value`, a `double`) are the integral values that travel on
  the wires, as `Int`. `trunc( v / 1000 )` is `Int.tdiv v 1000` and `%` is
  `Int.tmod` (C truncates towards zero).
* A C `int` is an `Int` kept in the 32-bit range by the operations: `castInt` is
  the conversion `(int) v` of a message value, which gives `INT_MIN` for a value
  out of range, and `wrapInt` is the two's complement result of an `int`
  addition, subtraction or multiplication. A conversion to `unsigned int` is the
  residue modulo 2^32.
* The counters `numOfInputs` and `inPlaces` are natural numbers: the count is
  the number of records stored in the buffer.
* A handler that throws is a result `Outcome.raised s e`, where `s` is the state
  of the object at the `throw`.
* `holdIn` and `passivate` of the simulator's `Atomic` base class record the
  phase and the delay to the next internal event.
-/

namespace PetriNet

/-! ## The simulator's scheduling state -/

/-- Phase of an atomic model, the two values of `Atomic::State` the models use. -/
inductive Phase where
  | active
  | passive
deriving DecidableEq, Repr

/-- Delay to the next internal event: a finite delay or `Time::Inf`. -/
inductive Time where
  | finite (t : Nat)
  | inf
deriving DecidableEq, Repr

/-- Exceptions thrown by the two models (`MException` with its message data). -/
inductive MException where
  | insufficientTokens (requested : Int) (held : Int)
  | inputPlacesTooSmall (inPlaces : Nat) (numOfInputs : Nat)
deriving DecidableEq, Repr

/-- Result of a handler: it returns normally with the new state, or it throws and
leaves the object in the state reached at the `throw`. -/
inductive Outcome (σ : Type) where
  | ok (s : σ)
  | raised (s : σ) (e : MException)
deriving DecidableEq, Repr

/-- State of the object after the handler, whether it returned or threw. -/
def Outcome.state {σ : Type} : Outcome σ → σ
  | .ok s => s
  | .raised s _ => s

/-- True when the handler threw. -/
def Outcome.isRaised {σ : Type} : Outcome σ → Bool
  | .ok _ => false
  | .raised _ _ => true

/-! ## Machine integers -/

/-- The conversion `(int) v` of a message value: the value itself when it fits a
32-bit `int`, and `INT_MIN` otherwise. -/
def castInt (v : Int) : Int :=
  if -2147483648 ≤ v ∧ v < 2147483648 then v else -2147483648

/-- The result of 32-bit `int` arithmetic whose exact result is `x`: two's
complement wraparound. -/
def wrapInt (x : Int) : Int :=
  (x + 2147483648) % 4294967296 - 2147483648

/-- The conversion of an integer to `unsigned int`: the residue modulo 2^32. -/
def toUnsigned (x : Int) : Nat :=
  (x % 4294967296).toNat

/-- The id a handler decodes from a message value,
`(int) trunc( msg.value() / 1000 )`. -/
def decodeId (value : Int) : Int :=
  castInt (Int.tdiv value 1000)

/-- The amount a place decodes from a message value, `(int) msg.value() % 1000`. -/
def decodeAmount (value : Int) : Int :=
  Int.tmod (castInt value) 1000

/-- The token count a transition decodes from an advertisement,
`unsigned int numOfTokens = (int) msg.value() % 1000`. -/
def decodeTokens (value : Int) : Nat :=
  toUnsigned (decodeAmount value)

/-! ## The place: `pnPlace.cpp` -/

/-- State of a `PnPlace`: the two private members and the scheduling state kept
by the `Atomic` base class. -/
structure PnPlace where
  numOfTokens : Int
  placeId : Int
  phase : Phase
  nextChange : Time
deriving DecidableEq, Repr

/-- Port an external message of a place arrives on: the port `in` created by the
constructor, or any other port. -/
inductive PlacePort where
  | inPort
  | other
deriving DecidableEq, Repr

/-- Output ports of a place. -/
inductive PlaceOut where
  | out
deriving DecidableEq, Repr

namespace PnPlace

/-- The call `holdIn( st, t )` of the base class. -/
def holdIn (s : PnPlace) (st : Phase) (t : Time) : PnPlace :=
  { s with phase := st, nextChange := t }

/-- The call `passivate()` of the base class. -/
def passivate (s : PnPlace) : PnPlace :=
  { s with phase := Phase.passive, nextChange := Time.inf }

/-- Constructor of `PnPlace` (lines 53-66): `tokens` is the optional parameter of
the `.ma` file; `junk` is what the member `placeId`, which the constructor does not
set, happens to hold. -/
def new (tokens : Option Int) (junk : Int) : PnPlace :=
  { numOfTokens := match tokens with
      | some n => n
      | none => 0,
    placeId := junk,
    phase := Phase.passive,
    nextChange := Time.inf }

/-- The function `PnPlace::initFunction` (lines 77-89): `id` is `Model::id()`. -/
def initFunction (s : PnPlace) (id : Int) : PnPlace :=
  holdIn { s with placeId := id } Phase.active (Time.finite 0)

/-- Body of `if( msg.port() == in )` in `PnPlace::externalFunction`
(lines 115-146). -/
def onIn (s : PnPlace) (value : Int) : Outcome PnPlace :=
  let destId := decodeId value
  if destId = s.placeId then
    if s.numOfTokens ≥ decodeAmount value then
      Outcome.ok { s with numOfTokens := wrapInt (s.numOfTokens - decodeAmount value) }
    else
      Outcome.raised s (MException.insufficientTokens (decodeAmount value) s.numOfTokens)
  else if destId = 0 then
    Outcome.ok { s with numOfTokens := wrapInt (s.numOfTokens + castInt value) }
  else
    Outcome.ok s

/-- The function `PnPlace::externalFunction` (lines 109-153). -/
def externalFunction (s : PnPlace) (port : PlacePort) (value : Int) : Outcome PnPlace :=
  let r := if port = PlacePort.inPort then onIn s value else Outcome.ok s
  match r with
  | Outcome.ok s1 => Outcome.ok (holdIn s1 Phase.active (Time.finite 0))
  | Outcome.raised s1 e => Outcome.raised s1 e

/-- The function `PnPlace::internalFunction` (lines 161-166). -/
def internalFunction (s : PnPlace) : PnPlace :=
  passivate s

/-- The function `PnPlace::outputFunction` (lines 177-187): the new state and
the values sent, each with its port. The value is computed in `int`. -/
def outputFunction (s : PnPlace) : PnPlace × List (PlaceOut × Int) :=
  (s, [(PlaceOut.out,
    wrapInt (wrapInt (s.placeId * 1000) +
      (if s.numOfTokens > 999 then 999 else s.numOfTokens)))])

/-- A run of the place: the messages are handled in order on port `in`, and the
run stops at the first one that throws. -/
def run (s : PnPlace) : List Int → Outcome PnPlace
  | [] => Outcome.ok s
  | v :: vs =>
    match externalFunction s PlacePort.inPort v with
    | Outcome.ok s1 => run s1 vs
    | Outcome.raised s1 e => Outcome.raised s1 e

end PnPlace

/-! ## The transition: `pnTrans.cpp` -/

/-- The `struct inputPlaceInfo` of `pnTrans.h`. -/
structure inputPlaceInfo where
  placeId : Int
  arcWidth : Nat
  enabled : Bool
deriving DecidableEq, Repr

/-- Input ports of a transition. -/
inductive TransPort where
  | in0
  | in1
  | in2
  | in3
  | in4
deriving DecidableEq, Repr

/-- Output ports of a transition. -/
inductive TransOut where
  | out1
  | out2
  | out3
  | out4
  | fired
deriving DecidableEq, Repr

/-- State shared by all the transitions of the process: the file-level
`static unsigned int inPlaces`, and the C library's generator, given by the value
`rand n` that the `n`-th call of `rand()` returns and the number of calls made so
far. -/
structure Globals where
  inPlaces : Nat
  rand : Nat → Nat
  randCalls : Nat

/-- State of a `PnTrans`: its state variables, the buffer behind `pArrayStart`
and the scheduling state kept by the `Atomic` base class. The buffer is a map
from index to record, since the code walks it with the unchecked pointer
`pInArray`; its first `numOfInputs` records are the registry. `pInArray` itself is
reset at the start of every function that uses it and is not part of the state.
`allocated` is the number of records of the buffer, fixed by
`new( inputPlaceInfo[inPlaces] )` in the constructor: the capacity this
transition was constructed with. -/
structure PnTrans where
  transEnabled : Bool
  numOfInputs : Nat
  randGenSeeded : Bool
  pArrayStart : Nat → inputPlaceInfo
  phase : Phase
  nextChange : Time
  allocated : Nat

/-- Local variables of the scan loop of `PnTrans::externalFunction` that the loop
changes, with the buffer it writes to. -/
structure ScanState where
  pArray : Nat → inputPlaceInfo
  placeIdMatch : Bool
  transEnabled : Bool

namespace PnTrans

/-- The records of the registry, in order: the first `numOfInputs` records of the
buffer. -/
def registry (s : PnTrans) : List inputPlaceInfo :=
  (List.range s.numOfInputs).map s.pArrayStart

/-- The call `holdIn( st, t )` of the base class. -/
def holdIn (s : PnTrans) (st : Phase) (t : Time) : PnTrans :=
  { s with phase := st, nextChange := t }

/-- The call `passivate()` of the base class. -/
def passivate (s : PnTrans) : PnTrans :=
  { s with phase := Phase.passive, nextChange := Time.inf }

/-- Constructor of `PnTrans` (lines 85-112): `inputplaces` is the optional
parameter of the `.ma` file, `junk` stands for the members and the fresh buffer
that the constructor leaves uninitialised. The buffer is allocated with the value
just written to `inPlaces`. -/
def new (g : Globals) (inputplaces : Option Nat) (junk : PnTrans) : Globals × PnTrans :=
  ({ g with inPlaces := match inputplaces with
      | some n => n
      | none => 10 },
   { junk with
     numOfInputs := 0,
     allocated := match inputplaces with
      | some n => n
      | none => 10 })

/-- Width of the arc, from the port the message came in on (lines 154-158). -/
def arcWidthOf : TransPort → Nat
  | TransPort.in0 => 0
  | TransPort.in1 => 1
  | TransPort.in2 => 2
  | TransPort.in3 => 3
  | TransPort.in4 => 4

/-- The enabling test the handler writes into `enabled`, at lines 179-184 for a
known place and again at lines 225-233 for a new one. -/
def arcEnabled (arcWidth numOfTokens : Nat) : Bool :=
  if arcWidth ≠ 0 ∧ numOfTokens ≥ arcWidth then true
  else if arcWidth = 0 ∧ numOfTokens = 0 then true
  else false

/-- One iteration of the scan loop (lines 173-197) at index `i`. -/
def scanBody (placeId : Int) (arcWidth numOfTokens : Nat) (i : Nat) (st : ScanState) :
    ScanState :=
  let st1 : ScanState :=
    if (!st.placeIdMatch) && decide ((st.pArray i).placeId = placeId) then
      { st with
        pArray := Function.update st.pArray i
          { st.pArray i with enabled := arcEnabled arcWidth numOfTokens },
        placeIdMatch := true }
    else st
  { st1 with transEnabled := st1.transEnabled && (st1.pArray i).enabled }

/-- The loop `for( i = 0; i < numOfInputs; i++ )` of lines 171-199: `k` iterations
are left and the next one is at index `i`. -/
def scanLoop (placeId : Int) (arcWidth numOfTokens : Nat) : Nat → Nat → ScanState → ScanState
  | 0, _, st => st
  | k + 1, i, st =>
    scanLoop placeId arcWidth numOfTokens k (i + 1) (scanBody placeId arcWidth numOfTokens i st)

/-- Lines 149-235 of `PnTrans::externalFunction`: the registry is scanned and
updated, or the exception is thrown. -/
def updateRegistry (g : Globals) (s : PnTrans) (port : TransPort) (value : Int) :
    Outcome PnTrans :=
  let arcWidth := arcWidthOf port
  let placeId := decodeId value
  let numOfTokens := decodeTokens value
  let st := scanLoop placeId arcWidth numOfTokens s.numOfInputs 0
    { pArray := s.pArrayStart, placeIdMatch := false, transEnabled := true }
  if !st.placeIdMatch then
    if s.numOfInputs = g.inPlaces then
      Outcome.raised
        { s with transEnabled := st.transEnabled, pArrayStart := st.pArray,
                 numOfInputs := s.numOfInputs + 1 }
        (MException.inputPlacesTooSmall g.inPlaces (s.numOfInputs + 1))
    else
      Outcome.ok
        { s with
          pArrayStart := Function.update st.pArray s.numOfInputs
            { placeId := placeId, arcWidth := arcWidth,
              enabled := arcEnabled arcWidth numOfTokens },
          transEnabled :=
            if arcEnabled arcWidth numOfTokens then st.transEnabled else false,
          numOfInputs := s.numOfInputs + 1 }
  else
    Outcome.ok { s with transEnabled := st.transEnabled, pArrayStart := st.pArray }

/-- The rejection loop of `PnTrans::randNumGet` (lines 357-360), with at most
`fuel` draws; `none` when the fuel does not suffice. The result is the value and
the number of calls of `rand()` made so far. -/
def randLoop (rand : Nat → Nat) : Nat → Nat → Nat → Option (Nat × Nat)
  | 0, value, calls =>
    if value < 1 ∨ value > 60 then none else some (value, calls)
  | fuel + 1, value, calls =>
    if value < 1 ∨ value > 60 then randLoop rand fuel (rand calls % 100) (calls + 1)
    else some (value, calls)

/-- The function `PnTrans::randNumGet` (lines 337-364). Seeding only selects the
sequence that `rand()` returns, which is the parameter `g.rand`. -/
def randNumGet (fuel : Nat) (g : Globals) (s : PnTrans) : Option (Nat × Globals × PnTrans) :=
  match randLoop g.rand fuel 0 g.randCalls with
  | some (value, calls) =>
    some (value, { g with randCalls := calls }, { s with randGenSeeded := true })
  | none => none

/-- Lines 247-252 of `PnTrans::externalFunction`, shared with the other handlers:
`holdIn( active, (float) this->randNumGet() )`. -/
def holdInRandom (fuel : Nat) (g : Globals) (s : PnTrans) : Option (Globals × PnTrans) :=
  match randNumGet fuel g s with
  | some (value, g1, s1) => some (g1, holdIn s1 Phase.active (Time.finite value))
  | none => none

/-- The function `PnTrans::initFunction` (lines 123-128). -/
def initFunction (fuel : Nat) (g : Globals) (s : PnTrans) : Option (Globals × PnTrans) :=
  holdInRandom fuel g s

/-- The function `PnTrans::externalFunction` (lines 140-256). The result is
`none` when the rejection loop of `randNumGet` does not end within `fuel` draws. -/
def externalFunction (fuel : Nat) (g : Globals) (s : PnTrans) (port : TransPort)
    (value : Int) : Option (Globals × Outcome PnTrans) :=
  match updateRegistry g s port value with
  | Outcome.raised s1 e => some (g, Outcome.raised s1 e)
  | Outcome.ok s1 =>
    if s1.transEnabled then
      match holdInRandom fuel g s1 with
      | some (g2, s2) => some (g2, Outcome.ok s2)
      | none => none
    else
      some (g, Outcome.ok (passivate s1))

/-- The function `PnTrans::internalFunction` (lines 268-282). -/
def internalFunction (fuel : Nat) (g : Globals) (s : PnTrans) : Option (Globals × PnTrans) :=
  if s.numOfInputs = 0 then holdInRandom fuel g s
  else some (g, passivate s)

/-- The value `pInArray->placeId * 1000 + pInArray->arcWidth` sent on `fired` for
a record: an `int` product, then an `unsigned int` sum. -/
def firedValue (r : inputPlaceInfo) : Int :=
  ((toUnsigned (wrapInt (r.placeId * 1000) + (r.arcWidth : Int)) : Nat) : Int)

/-- The loop of lines 316-321 of `PnTrans::outputFunction`: the values sent on
`fired`, with `k` iterations left and the next one at index `i`. -/
def firedLoop (pArray : Nat → inputPlaceInfo) : Nat → Nat → List (TransOut × Int)
  | 0, _ => []
  | k + 1, i =>
    (TransOut.fired, firedValue (pArray i)) :: firedLoop pArray k (i + 1)

/-- The function `PnTrans::outputFunction` (lines 302-330): the new state and the
values sent, in order, each with its port. -/
def outputFunction (s : PnTrans) : PnTrans × List (TransOut × Int) :=
  (s,
    [(TransOut.out1, 1), (TransOut.out2, 2), (TransOut.out3, 3), (TransOut.out4, 4)]
      ++ firedLoop s.pArrayStart s.numOfInputs 0
      ++ (if s.numOfInputs = 0 then [(TransOut.fired, 0)] else []))

/-- A call the simulator makes on a transition. -/
inductive Call where
  | init
  | ext (port : TransPort) (value : Int)
  | int
  | out

/-- One call on a transition: the shared state and the outcome, or `none` when
the rejection loop of `randNumGet` does not end within `fuel` draws. -/
def step (fuel : Nat) (g : Globals) (s : PnTrans) : Call → Option (Globals × Outcome PnTrans)
  | Call.init =>
    match initFunction fuel g s with
    | some (g1, s1) => some (g1, Outcome.ok s1)
    | none => none
  | Call.ext port value => externalFunction fuel g s port value
  | Call.int =>
    match internalFunction fuel g s with
    | some (g1, s1) => some (g1, Outcome.ok s1)
    | none => none
  | Call.out => some (g, Outcome.ok (outputFunction s).1)

/-- A run of one transition: the calls are made in order and the run stops at the
first one that throws. -/
def run (fuel : Nat) : Globals → PnTrans → List Call → Option (Globals × Outcome PnTrans)
  | g, s, [] => some (g, Outcome.ok s)
  | g, s, c :: cs =>
    match step fuel g s c with
    | some (g1, Outcome.ok s1) => run fuel g1 s1 cs
    | some (g1, Outcome.raised s1 e) => some (g1, Outcome.raised s1 e)
    | none => none

/-- The transition fires `k` times in a row: each firing is the output function
followed by the internal function. -/
def fire (fuel : Nat) : Nat → Globals → PnTrans → Option (Globals × PnTrans)
  | 0, g, s => some (g, s)
  | k + 1, g, s =>
    match internalFunction fuel g (outputFunction s).1 with
    | some (g1, s1) => fire fuel k g1 s1
    | none => none

/-- A sequence of advertisements, each with the port it arrives on, as calls of
the external function. -/
def adverts (msgs : List (TransPort × Int)) : List Call :=
  msgs.map (fun m => Call.ext m.1 m.2)

/-- The place ids the handler decodes from a sequence of advertisements. -/
def advertisedIds (msgs : List (TransPort × Int)) : List Int :=
  msgs.map (fun m => decodeId m.2)

end PnTrans

/-- The records in the cells `i, ..., i+k-1` of a buffer, in order. -/
def cells (f : Nat → inputPlaceInfo) (i k : Nat) : List inputPlaceInfo :=
  (List.range' i k).map f

/-- The registry update as the specification words it for a place that already
has a record: the `enabled` flag of the first record of place `placeId` is set to
`en`, and nothing else changes. -/
def updFirst (placeId : Int) (en : Bool) : List inputPlaceInfo → List inputPlaceInfo
  | [] => []
  | r :: rs =>
    if r.placeId = placeId then { r with enabled := en } :: rs
    else r :: updFirst placeId en rs

/-- Whether place `placeId` has a record in the list. -/
def hasPlace (placeId : Int) (l : List inputPlaceInfo) : Bool :=
  l.any (fun r => decide (r.placeId = placeId))

/-- The place ids of the records, in order. -/
def placeIds (l : List inputPlaceInfo) : List Int :=
  l.map (fun r => r.placeId)

/-- The records of place `placeId` in the list, in order. -/
def recordsOf (placeId : Int) (l : List inputPlaceInfo) : List inputPlaceInfo :=
  l.filter (fun r => decide (r.placeId = placeId))

/-- Logical AND of the `enabled` flags of the records. -/
def allEnabled (l : List inputPlaceInfo) : Bool :=
  l.all (fun r => r.enabled)

/-! ## Sample states used to instantiate the theorems -/

/-- A freshly constructed transition of capacity 10: empty registry over a blank
buffer. -/
def sampleTrans : PnTrans :=
  { transEnabled := false, numOfInputs := 0, randGenSeeded := false,
    pArrayStart := fun _ => { placeId := 0, arcWidth := 0, enabled := false },
    phase := Phase.passive, nextChange := Time.inf, allocated := 10 }

/-- Shared state with capacity `c` and a generator whose first draw (75) is
rejected and whose second (155, residue 55) is accepted. -/
def sampleGlobals (c : Nat) : Globals :=
  { inPlaces := c, rand := fun n => 75 + 80 * n, randCalls := 0 }

/-- A transition whose registry holds the single record `r`. -/
def sampleTrans1 (r : inputPlaceInfo) : PnTrans :=
  { sampleTrans with numOfInputs := 1, pArrayStart := Function.update sampleTrans.pArrayStart 0 r }

/-! ## The wire format, as the specification words it -/

/-- The specification's `decode`: `id = floor(value/1000)`, `payload = value mod 1000`. -/
def decode (value : Nat) : Nat × Nat :=
  (value / 1000, value % 1000)

/-- The specification's `encode`: `id * 1000 + payload`. -/
def encode (id payload : Nat) : Nat :=
  id * 1000 + payload

theorem castInt_of_range (x : Int) (h1 : -2147483648 ≤ x) (h2 : x < 2147483648) :
    castInt x = x := by
  unfold castInt
  rw [if_pos ⟨h1, h2⟩]

theorem wrapInt_of_range (x : Int) (h1 : -2147483648 ≤ x) (h2 : x < 2147483648) :
    wrapInt x = x := by
  unfold wrapInt
  omega

theorem tdiv_natCast (V : Nat) : Int.tdiv (V : Int) 1000 = ((V / 1000 : Nat) : Int) :=
  (Int.ofNat_tdiv V 1000).symm

theorem tmod_natCast (V : Nat) : Int.tmod (V : Int) 1000 = ((V % 1000 : Nat) : Int) :=
  (Int.ofNat_tmod V 1000).symm

/-- The id decoded from a non-negative value whose quotient by 1000 fits an `int`
is that quotient. -/
theorem decodeId_natCast (V : Nat) (h : V / 1000 < 2147483648) :
    decodeId (V : Int) = ((V / 1000 : Nat) : Int) := by
  unfold decodeId
  rw [tdiv_natCast]
  exact castInt_of_range _ (by omega) (by omega)

/-- The amount decoded from a non-negative value that fits an `int` is its
remainder by 1000. -/
theorem decodeAmount_natCast (V : Nat) (h : V < 2147483648) :
    decodeAmount (V : Int) = ((V % 1000 : Nat) : Int) := by
  unfold decodeAmount
  rw [castInt_of_range _ (by omega) (by omega), tmod_natCast]

/-- The token count a transition decodes from a non-negative value that fits an
`int` is its remainder by 1000. -/
theorem decodeTokens_natCast (V : Nat) (h : V < 2147483648) :
    decodeTokens (V : Int) = V % 1000 := by
  unfold decodeTokens toUnsigned
  rw [decodeAmount_natCast V h]
  omega

/-! ## Properties of the place -/

/-- The handler of port `in` on a non-negative message value that fits an `int`,
with the decoded destination and amount written with natural-number division and
remainder. -/
theorem onIn_natCast (s : PnPlace) (V : Nat) (hV : V < 2147483648) :
    s.onIn (V : Int) =
      if ((V / 1000 : Nat) : Int) = s.placeId then
        if ((V % 1000 : Nat) : Int) ≤ s.numOfTokens then
          Outcome.ok
            { s with numOfTokens := wrapInt (s.numOfTokens - ((V % 1000 : Nat) : Int)) }
        else
          Outcome.raised s
            (MException.insufficientTokens ((V % 1000 : Nat) : Int) s.numOfTokens)
      else if V / 1000 = 0 then
        Outcome.ok { s with numOfTokens := wrapInt (s.numOfTokens + (V : Int)) }
      else
        Outcome.ok s := by
  unfold PnPlace.onIn
  rw [decodeId_natCast V (by omega), decodeAmount_natCast V hV,
    castInt_of_range (V : Int) (by omega) (by omega)]
  have h0 : (((V / 1000 : Nat) : Int) = 0) = (V / 1000 = 0) := by
    apply propext
    exact Int.natCast_eq_zero
  simp only [h0, ge_iff_le]

/-- The external handler on port `in`: the body of the `if`, then `holdIn`. -/
theorem externalFunction_inPort (s : PnPlace) (value : Int) :
    s.externalFunction PlacePort.inPort value =
      match s.onIn value with
      | Outcome.ok s1 => Outcome.ok (s1.holdIn Phase.active (Time.finite 0))
      | Outcome.raised s1 e => Outcome.raised s1 e := rfl

/-- The whole external handler on port `in`, on a non-negative message value that
fits an `int`. -/
theorem externalFunction_natCast (s : PnPlace) (V : Nat) (hV : V < 2147483648) :
    s.externalFunction PlacePort.inPort (V : Int) =
      if ((V / 1000 : Nat) : Int) = s.placeId then
        if ((V % 1000 : Nat) : Int) ≤ s.numOfTokens then
          Outcome.ok { numOfTokens := wrapInt (s.numOfTokens - ((V % 1000 : Nat) : Int)),
                       placeId := s.placeId, phase := Phase.active,
                       nextChange := Time.finite 0 }
        else
          Outcome.raised s
            (MException.insufficientTokens ((V % 1000 : Nat) : Int) s.numOfTokens)
      else if V / 1000 = 0 then
        Outcome.ok { numOfTokens := wrapInt (s.numOfTokens + (V : Int)),
                     placeId := s.placeId, phase := Phase.active,
                     nextChange := Time.finite 0 }
      else
        Outcome.ok { numOfTokens := s.numOfTokens,
                     placeId := s.placeId, phase := Phase.active,
                     nextChange := Time.finite 0 } := by
  rw [externalFunction_inPort, onIn_natCast s V hV]
  by_cases h1 : ((V / 1000 : Nat) : Int) = s.placeId
  · rw [if_pos h1, if_pos h1]
    by_cases h2 : ((V % 1000 : Nat) : Int) ≤ s.numOfTokens
    · rw [if_pos h2, if_pos h2]
      rfl
    · rw [if_neg h2, if_neg h2]
  · rw [if_neg h1, if_neg h1]
    by_cases h3 : V / 1000 = 0
    · rw [if_pos h3, if_pos h3]
      rfl
    · rw [if_neg h3, if_neg h3]
      rfl

/-- C1, as stated, fails when the message value does not fit an `int`: place
5000000 holding 10 tokens receives 5000000000, whose destination is 5000000 and
whose amount is 0; the conversion `(int)` gives `INT_MIN`, the amount decoded is
-648, and the place is left with 658 tokens, not 10. -/
theorem C1_counterexample_value_out_of_int :
    PnPlace.externalFunction ⟨10, 5000000, Phase.passive, Time.inf⟩ PlacePort.inPort
        ((5000000000 : Nat) : Int) =
      Outcome.ok ⟨658, 5000000, Phase.active, Time.finite 0⟩ ∧
    ((5000000000 / 1000 : Nat) : Int) = 5000000 ∧ 5000000000 % 1000 = 0 ∧
    ((0 : Nat) : Int) ≤ 10 ∧ (658 : Int) ≠ 10 - ((0 : Nat) : Int) := by
  decide

/-- C1, amended. For a message value `V < 2^31` and a token count `t < 2^31`: a
withdrawal addressed to this place that asks for `a = V mod 1000 ≤ t` succeeds
and leaves exactly `t - a` tokens. -/
theorem C1_withdrawal_exact (s : PnPlace) (V a : Nat)
    (hV : V < 2147483648) (ht : s.numOfTokens < 2147483648)
    (hp : ((V / 1000 : Nat) : Int) = s.placeId)
    (ha : V % 1000 = a) (hle : (a : Int) ≤ s.numOfTokens) :
    ∃ s1, s.externalFunction PlacePort.inPort (V : Int) = Outcome.ok s1 ∧
      s1.numOfTokens = s.numOfTokens - a ∧ s1.placeId = s.placeId := by
  subst ha
  rw [externalFunction_natCast s V hV, if_pos hp, if_pos hle]
  refine ⟨_, rfl, ?_, rfl⟩
  exact wrapInt_of_range _ (by omega) (by omega)

/-- Witness of C1: place 5 holding 7 tokens handles 5003 and is left with 4. -/
theorem C1_withdrawal_exact_witness :
    ∃ s1, PnPlace.externalFunction ⟨7, 5, Phase.passive, Time.inf⟩ PlacePort.inPort
        ((5003 : Nat) : Int) = Outcome.ok s1 ∧
      s1.numOfTokens = (7 : Int) - ((3 : Nat) : Int) ∧ s1.placeId = 5 :=
  C1_withdrawal_exact ⟨7, 5, Phase.passive, Time.inf⟩ 5003 3 (by decide) (by decide)
    (by decide) (by decide) (by decide)

/-- C2, as stated, fails when the message value does not fit an `int`: place
5000000 holding 10 tokens receives 5000000999, addressed to it with amount 999,
more than it holds; the amount decoded is -648, and the handler does not throw
but returns normally with 658 tokens. -/
theorem C2_counterexample_value_out_of_int :
    PnPlace.externalFunction ⟨10, 5000000, Phase.passive, Time.inf⟩ PlacePort.inPort
        ((5000000999 : Nat) : Int) =
      Outcome.ok ⟨658, 5000000, Phase.active, Time.finite 0⟩ ∧
    ((5000000999 / 1000 : Nat) : Int) = 5000000 ∧
    (10 : Int) < ((5000000999 % 1000 : Nat) : Int) := by
  decide

/-- C2, amended. For a message value `V < 2^31` on port `in`, the handler throws
exactly when the message is addressed to this place and asks for more tokens than
the place holds; when it throws, the state of the place is the state before the
call. -/
theorem C2_raises_iff_insufficient (s : PnPlace) (V : Nat) (hV : V < 2147483648) :
    ((s.externalFunction PlacePort.inPort (V : Int)).isRaised = true ↔
      (((V / 1000 : Nat) : Int) = s.placeId ∧ s.numOfTokens < ((V % 1000 : Nat) : Int))) ∧
    ((s.externalFunction PlacePort.inPort (V : Int)).isRaised = true →
      s.externalFunction PlacePort.inPort (V : Int) =
        Outcome.raised s
          (MException.insufficientTokens ((V % 1000 : Nat) : Int) s.numOfTokens)) := by
  rw [externalFunction_natCast s V hV]
  split_ifs with h1 h2 h3
  · simp only [Outcome.isRaised]
    exact ⟨⟨fun h => Bool.noConfusion h, fun h => absurd h2 (not_le.mpr h.2)⟩,
      fun h => Bool.noConfusion h⟩
  · simp only [Outcome.isRaised, true_iff, forall_true_left, and_true]
    exact ⟨h1, lt_of_not_ge h2⟩
  · simp only [Outcome.isRaised]
    exact ⟨⟨fun h => Bool.noConfusion h, fun h => absurd h.1 h1⟩, fun h => Bool.noConfusion h⟩
  · simp only [Outcome.isRaised]
    exact ⟨⟨fun h => Bool.noConfusion h, fun h => absurd h.1 h1⟩, fun h => Bool.noConfusion h⟩

/-- Witness of C2: place 5 holding 1 token is asked for 3 by the message 5003; the
handler throws and the place is as it was. -/
theorem C2_raises_iff_insufficient_witness :
    PnPlace.externalFunction ⟨1, 5, Phase.passive, Time.inf⟩ PlacePort.inPort
        ((5003 : Nat) : Int) =
      Outcome.raised ⟨1, 5, Phase.passive, Time.inf⟩
        (MException.insufficientTokens ((5003 % 1000 : Nat) : Int) 1) :=
  (C2_raises_iff_insufficient ⟨1, 5, Phase.passive, Time.inf⟩ 5003 (by decide)).2 (by decide)

/-- C3, as stated, fails when the sum does not fit an `int`: place 3 holding
2147483647 tokens receives the deposit 1 and is left with -2147483648 tokens. -/
theorem C3_counterexample_count_overflow :
    PnPlace.externalFunction ⟨2147483647, 3, Phase.passive, Time.inf⟩ PlacePort.inPort
        ((1 : Nat) : Int) =
      Outcome.ok ⟨-2147483648, 3, Phase.active, Time.finite 0⟩ ∧
    (-2147483648 : Int) ≠ 2147483647 + ((1 % 1000 : Nat) : Int) := by
  decide

/-- C3, amended. A value `V` in 0..999 received by a place whose id is not 0 and
whose count `t` is an `int` with `t + V < 2^31` is a deposit: the handler succeeds
and adds the decoded amount, which is the whole value. -/
theorem C3_generic_deposit (s : PnPlace) (V : Nat)
    (hp : s.placeId ≠ 0) (hV : V ≤ 999)
    (hlo : -2147483648 ≤ s.numOfTokens) (hhi : s.numOfTokens + (V : Int) < 2147483648) :
    ∃ s1, s.externalFunction PlacePort.inPort (V : Int) = Outcome.ok s1 ∧
      s1.numOfTokens = s.numOfTokens + ((V % 1000 : Nat) : Int) ∧
      ((V % 1000 : Nat) : Int) = (V : Int) ∧ (decode V).1 = 0 := by
  have hd : V / 1000 = 0 := by omega
  have hm : V % 1000 = V := by omega
  rw [externalFunction_natCast s V (by omega), hd, hm]
  have hne : ¬ (((0 : Nat) : Int) = s.placeId) := fun h => hp h.symm
  rw [if_neg hne, if_pos rfl]
  refine ⟨_, rfl, ?_, rfl, hd⟩
  exact wrapInt_of_range _ (by omega) hhi

/-- Witness of C3: place 3 holding 3 tokens handles the deposit 4. -/
theorem C3_generic_deposit_witness :
    ∃ s1, PnPlace.externalFunction ⟨3, 3, Phase.passive, Time.inf⟩ PlacePort.inPort
        ((4 : Nat) : Int) = Outcome.ok s1 ∧
      s1.numOfTokens = (3 : Int) + ((4 % 1000 : Nat) : Int) ∧
      ((4 % 1000 : Nat) : Int) = ((4 : Nat) : Int) ∧ (decode 4).1 = 0 :=
  C3_generic_deposit ⟨3, 3, Phase.passive, Time.inf⟩ 4 (by decide) (by decide) (by decide)
    (by decide)

/-- The value a place sends, for a non-negative id and count, when the sum
`p*1000 + min(t, 999)` fits an `int`. -/
theorem place_output_natCast (p t : Nat) (ph : Phase) (nc : Time)
    (h : p * 1000 + min t 999 < 2147483648) :
    (PnPlace.outputFunction ⟨(t : Int), (p : Int), ph, nc⟩).2 =
      [(PlaceOut.out, ((p * 1000 + min t 999 : Nat) : Int))] := by
  have hval : wrapInt (wrapInt ((p : Int) * 1000) +
      (if (t : Int) > 999 then 999 else (t : Int))) = ((p * 1000 + min t 999 : Nat) : Int) := by
    have h1 : wrapInt ((p : Int) * 1000) = (p : Int) * 1000 :=
      wrapInt_of_range _ (by omega) (by omega)
    rw [h1]
    by_cases ht : t > 999
    · have h2 : (t : Int) > 999 := by omega
      rw [if_pos h2, Nat.min_eq_right (by omega)]
      rw [Nat.min_eq_right (by omega)] at h
      rw [wrapInt_of_range _ (by omega) (by omega)]
      push_cast
      rfl
    · have h2 : ¬ (t : Int) > 999 := by omega
      rw [if_neg h2, Nat.min_eq_left (by omega)]
      rw [Nat.min_eq_left (by omega)] at h
      rw [wrapInt_of_range _ (by omega) (by omega)]
      push_cast
      rfl
  show [(PlaceOut.out, wrapInt (wrapInt ((p : Int) * 1000) +
      (if (t : Int) > 999 then 999 else (t : Int))))] = _
  rw [hval]

/-- C5, as stated, fails when `p*1000 + min(t, 999)` does not fit an `int`: place
2147484 holding 5 tokens sends -2147483291, not 2147484005. -/
theorem C5_counterexample_output_overflow :
    (PnPlace.outputFunction ⟨((5 : Nat) : Int), ((2147484 : Nat) : Int), Phase.passive,
        Time.inf⟩).2 = [(PlaceOut.out, -2147483291)] ∧
    ((encode 2147484 (min 5 999) : Nat) : Int) = 2147484005 ∧
    (-2147483291 : Int) ≠ 2147484005 := by
  decide

/-- C5, amended. For a place with id `p` and `t` tokens such that
`p*1000 + min(t, 999) < 2^31`, the output function sends exactly
`p*1000 + min(t, 999)` on `out`; for every place it keeps the state; decoding
`p*1000 + min(t, 999)` gives back `(p, min(t, 999))`. Place 3 with 5 tokens sends
3003 after handling 3002 and 3007 after then handling 4. -/
theorem C5_output_and_codec :
    (∀ (p t : Nat) (ph : Phase) (nc : Time),
      (PnPlace.outputFunction ⟨(t : Int), (p : Int), ph, nc⟩).1 = ⟨(t : Int), (p : Int), ph, nc⟩ ∧
      (p * 1000 + min t 999 < 2147483648 →
        (PnPlace.outputFunction ⟨(t : Int), (p : Int), ph, nc⟩).2 =
          [(PlaceOut.out, ((encode p (min t 999) : Nat) : Int))]) ∧
      encode p (min t 999) = p * 1000 + min t 999 ∧
      decode (encode p (min t 999)) = (p, min t 999)) ∧
    (∃ s1 s2 : PnPlace,
      PnPlace.externalFunction ⟨5, 3, Phase.passive, Time.inf⟩ PlacePort.inPort 3002
        = Outcome.ok s1 ∧
      s1.numOfTokens = 3 ∧ (s1.outputFunction).2 = [(PlaceOut.out, 3003)] ∧
      (s1.outputFunction).1.externalFunction PlacePort.inPort 4 = Outcome.ok s2 ∧
      s2.numOfTokens = 7 ∧ (s2.outputFunction).2 = [(PlaceOut.out, 3007)]) := by
  constructor
  · intro p t ph nc
    refine ⟨rfl, ?_, rfl, ?_⟩
    · intro h
      exact place_output_natCast p t ph nc h
    · unfold decode encode
      have hlt : min t 999 < 1000 := by omega
      have h1 : (p * 1000 + min t 999) / 1000 = p := by omega
      have h2 : (p * 1000 + min t 999) % 1000 = min t 999 := by omega
      rw [h1, h2]
  · exact ⟨⟨3, 3, Phase.active, Time.finite 0⟩, ⟨7, 3, Phase.active, Time.finite 0⟩,
      by decide, by decide, by decide, by decide, by decide, by decide⟩

/-- Witness of C5: place 3 holding 1200 tokens sends 3999. -/
theorem C5_output_and_codec_witness :
    (PnPlace.outputFunction ⟨((1200 : Nat) : Int), ((3 : Nat) : Int), Phase.passive,
        Time.inf⟩).2 = [(PlaceOut.out, ((encode 3 (min 1200 999) : Nat) : Int))] :=
  (C5_output_and_codec.1 3 1200 Phase.passive Time.inf).2.1 (by decide)

/-- C7. Every call of the external handler that returns, on any port and for any
value, leaves the place active with delay zero; the internal handler leaves it
passive with an infinite delay and keeps the token count and the id. -/
theorem C7_place_scheduling (s : PnPlace) (port : PlacePort) (value : Int) :
    (∀ s1, s.externalFunction port value = Outcome.ok s1 →
      s1.phase = Phase.active ∧ s1.nextChange = Time.finite 0) ∧
    (s.internalFunction).phase = Phase.passive ∧
    (s.internalFunction).nextChange = Time.inf ∧
    (s.internalFunction).numOfTokens = s.numOfTokens ∧
    (s.internalFunction).placeId = s.placeId := by
  refine ⟨?_, rfl, rfl, rfl, rfl⟩
  intro s1 h
  unfold PnPlace.externalFunction at h
  generalize (if port = PlacePort.inPort then s.onIn value else Outcome.ok s) = r at h
  cases r with
  | ok s2 =>
    cases h
    exact ⟨rfl, rfl⟩
  | raised s2 e => cases h

/-- Witness of C7: place 3 ignores 7002 and is left active with delay zero. -/
theorem C7_place_scheduling_witness :
    (PnPlace.mk 5 3 Phase.active (Time.finite 0)).phase = Phase.active ∧
      (PnPlace.mk 5 3 Phase.active (Time.finite 0)).nextChange = Time.finite 0 :=
  (C7_place_scheduling ⟨5, 3, Phase.passive, Time.inf⟩ PlacePort.inPort 7002).1
    ⟨5, 3, Phase.active, Time.finite 0⟩ (by decide)

/-! ## Properties of the transition -/

theorem cells_zero (f : Nat → inputPlaceInfo) (i : Nat) : cells f i 0 = [] := rfl

theorem cells_succ (f : Nat → inputPlaceInfo) (i k : Nat) :
    cells f i (k + 1) = f i :: cells f (i + 1) k := by
  unfold cells
  rw [List.range'_succ, List.map_cons]

theorem cells_concat (f : Nat → inputPlaceInfo) (k : Nat) :
    cells f 0 (k + 1) = cells f 0 k ++ [f k] := by
  unfold cells
  rw [List.range'_1_concat, List.map_append, Nat.zero_add]
  rfl

theorem cells_congr (f h : Nat → inputPlaceInfo) (i k : Nat)
    (hfh : ∀ j, i ≤ j → j < i + k → f j = h j) : cells f i k = cells h i k := by
  unfold cells
  apply List.map_congr_left
  intro j hj
  rw [List.mem_range'_1] at hj
  exact hfh j hj.1 hj.2

theorem registry_eq_cells (s : PnTrans) : s.registry = cells s.pArrayStart 0 s.numOfInputs := by
  unfold PnTrans.registry cells
  rw [List.range_eq_range']

theorem hasPlace_cons (pid : Int) (r : inputPlaceInfo) (l : List inputPlaceInfo) :
    hasPlace pid (r :: l) = (decide (r.placeId = pid) || hasPlace pid l) := by
  unfold hasPlace
  rw [List.any_cons]

theorem allEnabled_cons (r : inputPlaceInfo) (l : List inputPlaceInfo) :
    allEnabled (r :: l) = (r.enabled && allEnabled l) := by
  unfold allEnabled
  rw [List.all_cons]

theorem updFirst_of_not_hasPlace (pid : Int) (en : Bool) (l : List inputPlaceInfo)
    (h : hasPlace pid l = false) : updFirst pid en l = l := by
  induction l with
  | nil => rfl
  | cons r rs ih =>
    rw [hasPlace_cons, Bool.or_eq_false_iff] at h
    have hr : ¬ r.placeId = pid := of_decide_eq_false h.1
    unfold updFirst
    rw [if_neg hr, ih h.2]

/-- One iteration of the scan only writes the cell it is at. -/
theorem scanBody_frame (pid : Int) (w nt i j : Nat) (st : ScanState) (hj : j ≠ i) :
    (PnTrans.scanBody pid w nt i st).pArray j = st.pArray j := by
  unfold PnTrans.scanBody
  by_cases hc : ((!st.placeIdMatch) && decide ((st.pArray i).placeId = pid)) = true
  · simp only [hc, if_true]
    exact Function.update_noteq hj _ _
  · simp only [hc]
    rfl

/-- The scan from index `i` over `k` cells only writes the cells `i, ..., i+k-1`. -/
theorem scanLoop_frame (pid : Int) (w nt : Nat) :
    ∀ (k i : Nat) (st : ScanState) (j : Nat), (j < i ∨ i + k ≤ j) →
      (PnTrans.scanLoop pid w nt k i st).pArray j = st.pArray j := by
  intro k
  induction k with
  | zero =>
    intro i st j _
    rfl
  | succ k ih =>
    intro i st j hj
    show (PnTrans.scanLoop pid w nt k (i + 1) (PnTrans.scanBody pid w nt i st)).pArray j = _
    rw [ih (i + 1) _ j (by omega)]
    exact scanBody_frame pid w nt i j st (by omega)

/-- One iteration of the scan when it does not touch the record: the place was
matched before, or the record is of another place. -/
theorem scanBody_skip (pid : Int) (w nt i : Nat) (st : ScanState)
    (h : st.placeIdMatch = true ∨ (st.pArray i).placeId ≠ pid) :
    PnTrans.scanBody pid w nt i st =
      { st with transEnabled := st.transEnabled && (st.pArray i).enabled } := by
  unfold PnTrans.scanBody
  have hc : ((!st.placeIdMatch) && decide ((st.pArray i).placeId = pid)) = false := by
    rcases h with h | h
    · rw [h]
      rfl
    · rw [decide_eq_false h, Bool.and_false]
  simp only [hc]
  rfl

/-- One iteration of the scan at the first record of the place. -/
theorem scanBody_hit (pid : Int) (w nt i : Nat) (st : ScanState)
    (hm : st.placeIdMatch = false) (hp : (st.pArray i).placeId = pid) :
    PnTrans.scanBody pid w nt i st =
      { pArray := Function.update st.pArray i
          { st.pArray i with enabled := PnTrans.arcEnabled w nt },
        placeIdMatch := true,
        transEnabled := st.transEnabled && PnTrans.arcEnabled w nt } := by
  unfold PnTrans.scanBody
  have hc : ((!st.placeIdMatch) && decide ((st.pArray i).placeId = pid)) = true := by
    rw [hm, decide_eq_true hp]
    rfl
  simp only [hc, if_true, Function.update_same]

/-- Once the place is matched, the rest of the scan only folds the flags into
`transEnabled`. -/
theorem scanLoop_matched (pid : Int) (w nt : Nat) :
    ∀ (k i : Nat) (st : ScanState), st.placeIdMatch = true →
      PnTrans.scanLoop pid w nt k i st =
        { st with transEnabled := st.transEnabled && allEnabled (cells st.pArray i k) } := by
  intro k
  induction k with
  | zero =>
    intro i st _
    show st = _
    simp [cells_zero, allEnabled]
  | succ k ih =>
    intro i st hm
    show PnTrans.scanLoop pid w nt k (i + 1) (PnTrans.scanBody pid w nt i st) = _
    rw [scanBody_skip pid w nt i st (Or.inl hm),
      ih (i + 1) { st with transEnabled := st.transEnabled && (st.pArray i).enabled } hm,
      cells_succ, allEnabled_cons, Bool.and_assoc]

/-- The scan loop against the list description, started with no match: the cells
scanned become `updFirst` of what they were, `placeIdMatch` tells whether the
place had a record, and `transEnabled` is the incoming value AND the flags of the
cells as the loop leaves them. -/
theorem scanLoop_unmatched (pid : Int) (w nt : Nat) :
    ∀ (k i : Nat) (st : ScanState), st.placeIdMatch = false →
      cells (PnTrans.scanLoop pid w nt k i st).pArray i k =
          updFirst pid (PnTrans.arcEnabled w nt) (cells st.pArray i k) ∧
      (PnTrans.scanLoop pid w nt k i st).placeIdMatch = hasPlace pid (cells st.pArray i k) ∧
      (PnTrans.scanLoop pid w nt k i st).transEnabled =
        (st.transEnabled && allEnabled (cells (PnTrans.scanLoop pid w nt k i st).pArray i k)) := by
  intro k
  induction k with
  | zero =>
    intro i st hm
    refine ⟨rfl, ?_, ?_⟩
    · show st.placeIdMatch = _
      rw [hm]
      rfl
    · show st.transEnabled = _
      simp [cells_zero, allEnabled]
  | succ k ih =>
    intro i st hm
    have hstep : PnTrans.scanLoop pid w nt (k + 1) i st =
        PnTrans.scanLoop pid w nt k (i + 1) (PnTrans.scanBody pid w nt i st) := rfl
    rw [hstep]
    by_cases hp : (st.pArray i).placeId = pid
    · rw [scanBody_hit pid w nt i st hm hp, scanLoop_matched pid w nt k (i + 1) _ rfl]
      have htail : cells (Function.update st.pArray i
            { st.pArray i with enabled := PnTrans.arcEnabled w nt }) (i + 1) k =
          cells st.pArray (i + 1) k := by
        apply cells_congr
        intro j hj _
        exact Function.update_noteq (by omega) _ _
      simp only [cells_succ, htail, Function.update_same, hasPlace_cons, allEnabled_cons]
      refine ⟨?_, ?_, ?_⟩
      · unfold updFirst
        rw [if_pos hp]
      · rw [decide_eq_true hp]
        rfl
      · rw [Bool.and_assoc]
    · rw [scanBody_skip pid w nt i st (Or.inr hp)]
      obtain ⟨h1, h2, h3⟩ := ih (i + 1)
        { st with transEnabled := st.transEnabled && (st.pArray i).enabled } hm
      have hi : (PnTrans.scanLoop pid w nt k (i + 1)
          { st with transEnabled := st.transEnabled && (st.pArray i).enabled }).pArray i =
          st.pArray i :=
        scanLoop_frame pid w nt k (i + 1) _ i (by omega)
      simp only [cells_succ, hi, hasPlace_cons, allEnabled_cons]
      refine ⟨?_, ?_, ?_⟩
      · rw [h1]
        show _ = updFirst pid (PnTrans.arcEnabled w nt) (st.pArray i :: cells st.pArray (i + 1) k)
        conv_rhs => unfold updFirst
        rw [if_neg hp]
      · rw [h2, decide_eq_false hp]
        rfl
      · rw [h3, Bool.and_assoc]

/-- Registry update when the place already has a record: no throw, the registry
is `updFirst` of the old one, and `transEnabled` is the AND of the new flags. -/
theorem updateRegistry_known (g : Globals) (s : PnTrans) (port : TransPort) (value : Int)
    (h : hasPlace (decodeId value) s.registry = true) :
    ∃ s1, PnTrans.updateRegistry g s port value = Outcome.ok s1 ∧
      s1.registry = updFirst (decodeId value)
        (PnTrans.arcEnabled (PnTrans.arcWidthOf port)
          (decodeTokens value)) s.registry ∧
      s1.numOfInputs = s.numOfInputs ∧
      s1.transEnabled = allEnabled s1.registry := by
  obtain ⟨h1, h2, h3⟩ := scanLoop_unmatched (decodeId value) (PnTrans.arcWidthOf port)
    (decodeTokens value) s.numOfInputs 0
    { pArray := s.pArrayStart, placeIdMatch := false, transEnabled := true } rfl
  rw [registry_eq_cells] at h
  simp only [] at h1 h2 h3
  rw [h] at h2
  simp only [PnTrans.updateRegistry, h2, Bool.not_true, Bool.false_eq_true, if_false]
  refine ⟨_, rfl, ?_, rfl, ?_⟩
  · rw [registry_eq_cells, registry_eq_cells]
    exact h1
  · rw [registry_eq_cells]
    simp only [h3, Bool.true_and]

/-- Registry update for a place without a record when the count differs from
`inPlaces`: no throw, the record is appended, and `transEnabled` is the AND of the
new flags. -/
theorem updateRegistry_new (g : Globals) (s : PnTrans) (port : TransPort) (value : Int)
    (h : hasPlace (decodeId value) s.registry = false)
    (hc : s.numOfInputs ≠ g.inPlaces) :
    ∃ s1, PnTrans.updateRegistry g s port value = Outcome.ok s1 ∧
      s1.registry = s.registry ++
        [{ placeId := decodeId value, arcWidth := PnTrans.arcWidthOf port,
           enabled := PnTrans.arcEnabled (PnTrans.arcWidthOf port)
             (decodeTokens value) }] ∧
      s1.numOfInputs = s.numOfInputs + 1 ∧
      s1.transEnabled = allEnabled s1.registry := by
  obtain ⟨h1, h2, h3⟩ := scanLoop_unmatched (decodeId value) (PnTrans.arcWidthOf port)
    (decodeTokens value) s.numOfInputs 0
    { pArray := s.pArrayStart, placeIdMatch := false, transEnabled := true } rfl
  rw [registry_eq_cells] at h
  simp only [] at h1 h2 h3
  rw [h] at h2
  rw [updFirst_of_not_hasPlace _ _ _ h] at h1
  simp only [PnTrans.updateRegistry, h2, Bool.not_false, if_true, if_neg hc]
  have hreg : cells (Function.update
        (PnTrans.scanLoop (decodeId value) (PnTrans.arcWidthOf port)
          (decodeTokens value) s.numOfInputs 0
          { pArray := s.pArrayStart, placeIdMatch := false, transEnabled := true }).pArray
        s.numOfInputs
        { placeId := decodeId value, arcWidth := PnTrans.arcWidthOf port,
          enabled := PnTrans.arcEnabled (PnTrans.arcWidthOf port)
            (decodeTokens value) }) 0 (s.numOfInputs + 1) =
      cells s.pArrayStart 0 s.numOfInputs ++
        [{ placeId := decodeId value, arcWidth := PnTrans.arcWidthOf port,
           enabled := PnTrans.arcEnabled (PnTrans.arcWidthOf port)
             (decodeTokens value) }] := by
    rw [cells_concat, Function.update_same, ← h1]
    congr 1
    apply cells_congr
    intro j _ hj
    exact Function.update_noteq (by omega) _ _
  refine ⟨_, rfl, ?_, rfl, ?_⟩
  · rw [registry_eq_cells, registry_eq_cells]
    exact hreg
  · rw [registry_eq_cells]
    show _ = allEnabled (cells _ 0 (s.numOfInputs + 1))
    rw [hreg]
    simp only [h3, h1, Bool.true_and, allEnabled, List.all_append, List.all_cons, List.all_nil,
      Bool.and_true]
    cases PnTrans.arcEnabled (PnTrans.arcWidthOf port) (decodeTokens value)
    · simp
    · simp

/-- Registry update for a place without a record when the count equals
`inPlaces`: the exception is thrown, after the count has been incremented. -/
theorem updateRegistry_overflow (g : Globals) (s : PnTrans) (port : TransPort) (value : Int)
    (h : hasPlace (decodeId value) s.registry = false)
    (hc : s.numOfInputs = g.inPlaces) :
    ∃ s1, PnTrans.updateRegistry g s port value =
        Outcome.raised s1 (MException.inputPlacesTooSmall g.inPlaces (s.numOfInputs + 1)) ∧
      s1.numOfInputs = s.numOfInputs + 1 := by
  obtain ⟨_, h2, _⟩ := scanLoop_unmatched (decodeId value) (PnTrans.arcWidthOf port)
    (decodeTokens value) s.numOfInputs 0
    { pArray := s.pArrayStart, placeIdMatch := false, transEnabled := true } rfl
  rw [registry_eq_cells] at h
  simp only [] at h2
  rw [h] at h2
  simp only [PnTrans.updateRegistry, h2, Bool.not_false, if_true, if_pos hc]
  exact ⟨_, rfl, rfl⟩

/-- Decoding of an advertisement `q*1000 + n` with `n ≤ 999` that fits an `int`. -/
theorem decode_advert (q n : Nat) (hn : n ≤ 999) (hV : q * 1000 + n < 2147483648) :
    decodeId ((q * 1000 + n : Nat) : Int) = (q : Int) ∧
    decodeTokens ((q * 1000 + n : Nat) : Int) = n := by
  have h1 : (q * 1000 + n) / 1000 = q := by omega
  have h2 : (q * 1000 + n) % 1000 = n := by omega
  rw [decodeId_natCast _ (by omega), decodeTokens_natCast _ hV, h1, h2]
  exact ⟨rfl, rfl⟩

/-- The enabling test of the code is the predicate of the specification. -/
theorem arcEnabled_eq (w n : Nat) :
    PnTrans.arcEnabled w n = decide ((w ≠ 0 ∧ n ≥ w) ∨ (w = 0 ∧ n = 0)) := by
  unfold PnTrans.arcEnabled
  by_cases h1 : w ≠ 0 ∧ n ≥ w
  · rw [if_pos h1, decide_eq_true (Or.inl h1)]
  · rw [if_neg h1]
    by_cases h2 : w = 0 ∧ n = 0
    · rw [if_pos h2, decide_eq_true (Or.inr h2)]
    · rw [if_neg h2, decide_eq_false (fun h => h.elim h1 h2)]

theorem hasPlace_eq_false_iff (pid : Int) (l : List inputPlaceInfo) :
    hasPlace pid l = false ↔ ∀ r ∈ l, r.placeId ≠ pid := by
  unfold hasPlace
  rw [List.any_eq_false]
  constructor
  · intro h r hr
    exact of_decide_eq_false (Bool.eq_false_iff.mpr (h r hr))
  · intro h r hr
    rw [decide_eq_false (h r hr)]
    exact Bool.false_ne_true

/-- After `updFirst`, the first record of the place carries the new flag. -/
theorem find_updFirst (pid : Int) (en : Bool) (l : List inputPlaceInfo)
    (h : hasPlace pid l = true) :
    ((updFirst pid en l).find? (fun r => decide (r.placeId = pid))).map (fun r => r.enabled) =
      some en := by
  induction l with
  | nil => cases h
  | cons r rs ih =>
    unfold updFirst
    by_cases hr : r.placeId = pid
    · rw [if_pos hr, List.find?_cons_of_pos]
      · rfl
      · exact decide_eq_true hr
    · rw [if_neg hr, List.find?_cons_of_neg]
      · rw [hasPlace_cons, decide_eq_false hr, Bool.false_or] at h
        exact ih h
      · rw [decide_eq_false hr]
        exact Bool.false_ne_true

/-- After appending the record of a place that had none, that record is the
first record of the place. -/
theorem find_append_new (pid : Int) (w : Nat) (en : Bool) (l : List inputPlaceInfo)
    (h : hasPlace pid l = false) :
    List.find? (fun r : inputPlaceInfo => decide (r.placeId = pid))
        (l ++ [({ placeId := pid, arcWidth := w, enabled := en } : inputPlaceInfo)]) =
      some { placeId := pid, arcWidth := w, enabled := en } := by
  have hnone : l.find? (fun r => decide (r.placeId = pid)) = none := by
    rw [List.find?_eq_none]
    intro r hr
    rw [decide_eq_false ((hasPlace_eq_false_iff pid l).mp h r hr)]
    exact Bool.false_ne_true
  rw [List.find?_append, hnone, Option.none_or, List.find?_cons_of_pos]
  exact decide_eq_true rfl

/-- A call of the external handler that returns normally went through a registry
update that did not throw, and the scheduling that follows keeps the registry,
the count and `transEnabled`. -/
theorem externalFunction_ok (fuel : Nat) (g g1 : Globals) (s s2 : PnTrans) (port : TransPort)
    (value : Int)
    (h : PnTrans.externalFunction fuel g s port value = some (g1, Outcome.ok s2)) :
    ∃ s1, PnTrans.updateRegistry g s port value = Outcome.ok s1 ∧
      s2.registry = s1.registry ∧ s2.numOfInputs = s1.numOfInputs ∧
      s2.transEnabled = s1.transEnabled := by
  unfold PnTrans.externalFunction at h
  cases hu : PnTrans.updateRegistry g s port value with
  | raised s1 e =>
    rw [hu] at h
    cases h
  | ok s1 =>
    rw [hu] at h
    refine ⟨s1, rfl, ?_⟩
    by_cases hte : s1.transEnabled = true
    · simp only [hte, if_true] at h
      unfold PnTrans.holdInRandom PnTrans.randNumGet at h
      cases hr : PnTrans.randLoop g.rand fuel 0 g.randCalls with
      | none =>
        rw [hr] at h
        cases h
      | some vc =>
        rw [hr] at h
        cases h
        exact ⟨rfl, rfl, rfl⟩
    · simp only [hte] at h
      cases h
      exact ⟨rfl, rfl, rfl⟩

/-- The external handler throws exactly when the registry update throws, whatever
the fuel, and then the shared state is untouched. -/
theorem externalFunction_raised (fuel : Nat) (g g1 : Globals) (s s1 : PnTrans)
    (port : TransPort) (value : Int) (e : MException) :
    PnTrans.externalFunction fuel g s port value = some (g1, Outcome.raised s1 e) ↔
      (PnTrans.updateRegistry g s port value = Outcome.raised s1 e ∧ g1 = g) := by
  unfold PnTrans.externalFunction
  cases hu : PnTrans.updateRegistry g s port value with
  | raised s2 e2 =>
    constructor
    · intro h
      cases h
      exact ⟨rfl, rfl⟩
    · intro h
      obtain ⟨h1, h2⟩ := h
      cases h1
      rw [h2]
  | ok s2 =>
    constructor
    · intro h
      by_cases hte : s2.transEnabled = true
      · simp only [hte, if_true] at h
        cases hr : PnTrans.holdInRandom fuel g s2 with
        | none =>
          rw [hr] at h
          cases h
        | some p =>
          rw [hr] at h
          cases h
      · simp only [hte] at h
        cases h
    · intro h
      cases h.1

/-- The rejection loop ends as soon as a draw has its residue in 1..60: if the
draw `k` calls ahead is such a draw, `k + 1` draws suffice, and the value
returned is in 1..60. -/
theorem randLoop_terminates (rand : Nat → Nat) :
    ∀ (k calls value : Nat), 1 ≤ rand (calls + k) % 100 → rand (calls + k) % 100 ≤ 60 →
      ∃ v c, PnTrans.randLoop rand (k + 1) value calls = some (v, c) ∧ 1 ≤ v ∧ v ≤ 60 := by
  intro k
  induction k with
  | zero =>
    intro calls value h1 h2
    unfold PnTrans.randLoop
    by_cases hv : value < 1 ∨ value > 60
    · rw [if_pos hv]
      unfold PnTrans.randLoop
      rw [if_neg (by rw [Nat.add_zero] at h1 h2; omega)]
      exact ⟨_, _, rfl, h1, h2⟩
    · rw [if_neg hv]
      exact ⟨_, _, rfl, by omega, by omega⟩
  | succ k ih =>
    intro calls value h1 h2
    unfold PnTrans.randLoop
    by_cases hv : value < 1 ∨ value > 60
    · rw [if_pos hv]
      have e : calls + 1 + k = calls + (k + 1) := by omega
      exact ih (calls + 1) (rand calls % 100) (by rw [e]; exact h1) (by rw [e]; exact h2)
    · rw [if_neg hv]
      exact ⟨_, _, rfl, by omega, by omega⟩

/-- C8, as stated, fails when the advertisement does not fit an `int`: a fresh
transition receives 3000000000 on `in1`, that is `q = 3000000` and `n = 0`. The
predicate on width 1 and 0 tokens is false, but the conversion `(int)` gives
`INT_MIN`, the token count decoded is 4294966648, and the record of place 3000000
is stored enabled. -/
theorem C8_counterexample_value_out_of_int :
    ∃ g1 s1, PnTrans.externalFunction 2 (sampleGlobals 10) sampleTrans TransPort.in1
        ((3000000 * 1000 + 0 : Nat) : Int) = some (g1, Outcome.ok s1) ∧
      (s1.registry.find? (fun r => decide (r.placeId = ((3000000 : Nat) : Int)))).map
        (fun r => r.enabled) = some true ∧
      decodeTokens ((3000000 * 1000 + 0 : Nat) : Int) = 4294966648 ∧
      decide ((PnTrans.arcWidthOf TransPort.in1 ≠ 0 ∧ 0 ≥ PnTrans.arcWidthOf TransPort.in1) ∨
        (PnTrans.arcWidthOf TransPort.in1 = 0 ∧ 0 = 0)) = false :=
  ⟨_, _, rfl, rfl, by decide, by decide⟩

/-- C8, amended. After a call of the external handler that returns normally, on
the port of width `w` with the advertisement `q*1000 + n`, `n ≤ 999`, that is
below 2^31, the record of place `q`
has `enabled = ((w ≠ 0 ∧ n ≥ w) ∨ (w = 0 ∧ n = 0))`, whether the place had a
record or the record was appended by this call. On `in2` the flag is `n ≥ 2`, on
`in0` it is `n = 0`. -/
theorem C8_record_enabling (fuel : Nat) (g g1 : Globals) (s s1 : PnTrans) (port : TransPort)
    (q n : Nat) (hn : n ≤ 999) (hV : q * 1000 + n < 2147483648)
    (h : PnTrans.externalFunction fuel g s port ((q * 1000 + n : Nat) : Int) =
      some (g1, Outcome.ok s1)) :
    (s1.registry.find? (fun r => decide (r.placeId = (q : Int)))).map (fun r => r.enabled) =
        some (decide ((PnTrans.arcWidthOf port ≠ 0 ∧ n ≥ PnTrans.arcWidthOf port) ∨
          (PnTrans.arcWidthOf port = 0 ∧ n = 0))) ∧
      PnTrans.arcWidthOf port ≤ 4 ∧
      (port = TransPort.in2 →
        (s1.registry.find? (fun r => decide (r.placeId = (q : Int)))).map (fun r => r.enabled) =
          some (decide (n ≥ 2))) ∧
      (port = TransPort.in0 →
        (s1.registry.find? (fun r => decide (r.placeId = (q : Int)))).map (fun r => r.enabled) =
          some (decide (n = 0))) := by
  obtain ⟨hq, hnt⟩ := decode_advert q n hn hV
  obtain ⟨s0, hu, hreg, _, _⟩ := externalFunction_ok fuel g g1 s s1 port _ h
  have main : (s1.registry.find? (fun r => decide (r.placeId = (q : Int)))).map
      (fun r => r.enabled) = some (PnTrans.arcEnabled (PnTrans.arcWidthOf port) n) := by
    rw [hreg]
    cases hp : hasPlace (q : Int) s.registry with
    | true =>
      obtain ⟨s0', hu', hreg', _, _⟩ := updateRegistry_known g s port
        ((q * 1000 + n : Nat) : Int) (by rw [hq]; exact hp)
      rw [hu] at hu'
      cases hu'
      rw [hreg', hq, hnt]
      exact find_updFirst (q : Int) _ s.registry hp
    | false =>
      have hne : s.numOfInputs ≠ g.inPlaces := by
        intro hc
        obtain ⟨s0', hu', _⟩ := updateRegistry_overflow g s port
          ((q * 1000 + n : Nat) : Int) (by rw [hq]; exact hp) hc
        rw [hu] at hu'
        cases hu'
      obtain ⟨s0', hu', hreg', _, _⟩ := updateRegistry_new g s port
        ((q * 1000 + n : Nat) : Int) (by rw [hq]; exact hp) hne
      rw [hu] at hu'
      cases hu'
      rw [hreg', hq, hnt, find_append_new (q : Int) _ _ s.registry hp]
      rfl
  rw [arcEnabled_eq] at main
  refine ⟨main, ?_, ?_, ?_⟩
  · cases port <;> decide
  · intro hport
    rw [main, hport]
    simp [PnTrans.arcWidthOf]
  · intro hport
    rw [main, hport]
    simp [PnTrans.arcWidthOf]

/-- Witness of C8: a fresh transition of capacity 10 receives 12002 on `in2`; the
record of place 12 is appended with `enabled = true`. -/
theorem C8_record_enabling_witness :
    (List.find? (fun r => decide (r.placeId = ((12 : Nat) : Int)))
        (PnTrans.registry
          { sampleTrans1 { placeId := 12, arcWidth := 2, enabled := true } with
            transEnabled := true, randGenSeeded := true, phase := Phase.active,
            nextChange := Time.finite 55 })).map (fun r => r.enabled) = some true :=
  (C8_record_enabling 2 (sampleGlobals 10) { sampleGlobals 10 with randCalls := 2 }
    sampleTrans
    { sampleTrans1 { placeId := 12, arcWidth := 2, enabled := true } with
      transEnabled := true, randGenSeeded := true, phase := Phase.active,
      nextChange := Time.finite 55 }
    TransPort.in2 12 2 (by decide) (by decide) rfl).1

theorem allEnabled_eq_true_iff (l : List inputPlaceInfo) :
    allEnabled l = true ↔ ∀ r ∈ l, r.enabled = true := by
  unfold allEnabled
  exact List.all_eq_true

/-- C9. After a call of the external handler that returns normally, whatever
`transEnabled` was before and whatever the port and the value, `transEnabled` is
the AND of the `enabled` flags of all the records of the registry as the call
leaves it. When the call appends a record with `enabled = false`, `transEnabled`
is false. No assumption on the ids of the registry is needed. -/
theorem C9_overall_enabling (fuel : Nat) (g g1 : Globals) (s s1 : PnTrans) (port : TransPort)
    (value : Int)
    (h : PnTrans.externalFunction fuel g s port value = some (g1, Outcome.ok s1)) :
    s1.transEnabled = allEnabled s1.registry ∧
      (s1.transEnabled = true ↔ ∀ r ∈ s1.registry, r.enabled = true) ∧
      ((∀ r ∈ s.registry, r.placeId ≠ decodeId value) →
        PnTrans.arcEnabled (PnTrans.arcWidthOf port)
          (decodeTokens value) = false →
        s1.registry = s.registry ++
          [{ placeId := decodeId value, arcWidth := PnTrans.arcWidthOf port,
             enabled := false }] ∧
        s1.transEnabled = false) := by
  obtain ⟨s0, hu, hreg, _, hte⟩ := externalFunction_ok fuel g g1 s s1 port value h
  have hall : s1.transEnabled = allEnabled s1.registry := by
    rw [hte, hreg]
    cases hp : hasPlace (decodeId value) s.registry with
    | true =>
      obtain ⟨s0', hu', _, _, hte'⟩ := updateRegistry_known g s port value hp
      rw [hu] at hu'
      cases hu'
      exact hte'
    | false =>
      have hne : s.numOfInputs ≠ g.inPlaces := by
        intro hc
        obtain ⟨s0', hu', _⟩ := updateRegistry_overflow g s port value hp hc
        rw [hu] at hu'
        cases hu'
      obtain ⟨s0', hu', _, _, hte'⟩ := updateRegistry_new g s port value hp hne
      rw [hu] at hu'
      cases hu'
      exact hte'
  refine ⟨hall, ?_, ?_⟩
  · rw [hall]
    exact allEnabled_eq_true_iff s1.registry
  · intro hnew hen
    have hp : hasPlace (decodeId value) s.registry = false :=
      (hasPlace_eq_false_iff _ _).mpr hnew
    have hne : s.numOfInputs ≠ g.inPlaces := by
      intro hc
      obtain ⟨s0', hu', _⟩ := updateRegistry_overflow g s port value hp hc
      rw [hu] at hu'
      cases hu'
    obtain ⟨s0', hu', hreg', _, _⟩ := updateRegistry_new g s port value hp hne
    rw [hu] at hu'
    cases hu'
    rw [hen] at hreg'
    have hr : s1.registry = s.registry ++
        [{ placeId := decodeId value, arcWidth := PnTrans.arcWidthOf port,
           enabled := false }] := by
      rw [hreg, hreg']
    refine ⟨hr, ?_⟩
    rw [hall, hr]
    simp [allEnabled]

/-- Witness of C9: the registry holds the enabled record of place 12; the
advertisement 5003 arrives on `in0` from the unseen place 5, its record is
appended disabled, and `transEnabled` is false, the AND of the two flags. -/
theorem C9_overall_enabling_witness :
    false = allEnabled (PnTrans.registry
      { transEnabled := false, numOfInputs := 2, randGenSeeded := false,
        pArrayStart := Function.update
          (sampleTrans1 { placeId := 12, arcWidth := 2, enabled := true }).pArrayStart 1
          { placeId := 5, arcWidth := 0, enabled := false },
        phase := Phase.passive, nextChange := Time.inf, allocated := 10 }) :=
  (C9_overall_enabling 0 (sampleGlobals 10) (sampleGlobals 10)
    { sampleTrans1 { placeId := 12, arcWidth := 2, enabled := true } with transEnabled := true }
    { transEnabled := false, numOfInputs := 2, randGenSeeded := false,
      pArrayStart := Function.update
        (sampleTrans1 { placeId := 12, arcWidth := 2, enabled := true }).pArrayStart 1
        { placeId := 5, arcWidth := 0, enabled := false },
      phase := Phase.passive, nextChange := Time.inf, allocated := 10 }
    TransPort.in0 5003 rfl).1

/-- The rejection loop entered with a value in 1..60 returns it without a draw. -/
theorem randLoop_accept (rand : Nat → Nat) (fuel value calls : Nat)
    (h : ¬ (value < 1 ∨ value > 60)) :
    PnTrans.randLoop rand fuel value calls = some (value, calls) := by
  cases fuel with
  | zero =>
    unfold PnTrans.randLoop
    rw [if_neg h]
  | succ f =>
    unfold PnTrans.randLoop
    rw [if_neg h]

/-- The rejection loop entered with a value outside 1..60: when it returns, it
returns the residue of the first draw whose residue is in 1..60, after drawing
exactly up to that draw. -/
theorem randLoop_first (rand : Nat → Nat) :
    ∀ (fuel value calls v c : Nat), (value < 1 ∨ value > 60) →
      PnTrans.randLoop rand fuel value calls = some (v, c) →
      ∃ k, k < fuel ∧ c = calls + k + 1 ∧ v = rand (calls + k) % 100 ∧ 1 ≤ v ∧ v ≤ 60 ∧
        ∀ j, j < k → (rand (calls + j) % 100 < 1 ∨ rand (calls + j) % 100 > 60) := by
  intro fuel
  induction fuel with
  | zero =>
    intro value calls v c hbad h
    unfold PnTrans.randLoop at h
    rw [if_pos hbad] at h
    cases h
  | succ f ih =>
    intro value calls v c hbad h
    unfold PnTrans.randLoop at h
    rw [if_pos hbad] at h
    by_cases hnext : rand calls % 100 < 1 ∨ rand calls % 100 > 60
    · obtain ⟨k, hk, hc, hv, h1, h2, hrej⟩ := ih (rand calls % 100) (calls + 1) v c hnext h
      refine ⟨k + 1, by omega, by omega, ?_, h1, h2, ?_⟩
      · rw [hv]
        congr 2
        omega
      · intro j hj
        cases j with
        | zero => exact hnext
        | succ i =>
          have e : calls + (i + 1) = calls + 1 + i := by omega
          rw [e]
          exact hrej i (by omega)
    · rw [randLoop_accept rand f _ _ hnext] at h
      cases h
      exact ⟨0, by omega, rfl, rfl, by omega, by omega, fun j hj => absurd hj (Nat.not_lt_zero j)⟩

/-- What `randNumGet` returns when it returns. -/
theorem randNumGet_first (fuel : Nat) (g g1 : Globals) (s s1 : PnTrans) (v : Nat)
    (h : PnTrans.randNumGet fuel g s = some (v, g1, s1)) :
    1 ≤ v ∧ v ≤ 60 ∧ s1 = { s with randGenSeeded := true } ∧
      g1.inPlaces = g.inPlaces ∧ g1.rand = g.rand ∧
      ∃ k, k < fuel ∧ g1.randCalls = g.randCalls + k + 1 ∧
        v = g.rand (g.randCalls + k) % 100 ∧
        ∀ j, j < k →
          (g.rand (g.randCalls + j) % 100 < 1 ∨ g.rand (g.randCalls + j) % 100 > 60) := by
  unfold PnTrans.randNumGet at h
  cases hr : PnTrans.randLoop g.rand fuel 0 g.randCalls with
  | none =>
    rw [hr] at h
    cases h
  | some vc =>
    obtain ⟨v0, c0⟩ := vc
    rw [hr] at h
    cases h
    obtain ⟨k, hk, hc, hv, h1, h2, hrej⟩ :=
      randLoop_first g.rand fuel 0 g.randCalls v c0 (Or.inl (by omega)) hr
    exact ⟨h1, h2, rfl, rfl, rfl, k, hk, hc, hv, hrej⟩

/-- With a draw of residue in 1..60 `k` calls ahead, `randNumGet` returns within
`k + 1` draws. -/
theorem randNumGet_returns (g : Globals) (s : PnTrans) (k : Nat)
    (h1 : 1 ≤ g.rand (g.randCalls + k) % 100) (h2 : g.rand (g.randCalls + k) % 100 ≤ 60) :
    ∃ r, PnTrans.randNumGet (k + 1) g s = some r := by
  obtain ⟨v, c, hvc, _, _⟩ := randLoop_terminates g.rand k g.randCalls 0 h1 h2
  unfold PnTrans.randNumGet
  rw [hvc]
  exact ⟨_, rfl⟩

/-- C15. With `rand()` an arbitrary sequence of naturals: when `randNumGet`
returns `v`, then `1 ≤ v ≤ 60` and `v` is the residue modulo 100 of the first
draw whose residue is in 1..60, all earlier draws having been rejected; and
`randNumGet` returns, within `k + 1` draws, whenever the draw `k` calls ahead has
its residue in 1..60. -/
theorem C15_randNumGet_range (fuel : Nat) (g : Globals) (s : PnTrans) :
    (∀ v g1 s1, PnTrans.randNumGet fuel g s = some (v, g1, s1) →
      1 ≤ v ∧ v ≤ 60 ∧
      ∃ k, v = g.rand (g.randCalls + k) % 100 ∧ g1.randCalls = g.randCalls + k + 1 ∧
        ∀ j, j < k →
          ¬ (1 ≤ g.rand (g.randCalls + j) % 100 ∧ g.rand (g.randCalls + j) % 100 ≤ 60)) ∧
    (∀ k, 1 ≤ g.rand (g.randCalls + k) % 100 → g.rand (g.randCalls + k) % 100 ≤ 60 →
      ∃ v g1 s1, PnTrans.randNumGet (k + 1) g s = some (v, g1, s1)) := by
  constructor
  · intro v g1 s1 h
    obtain ⟨h1, h2, _, _, _, k, _, hc, hv, hrej⟩ := randNumGet_first fuel g g1 s s1 v h
    refine ⟨h1, h2, k, hv, hc, ?_⟩
    intro j hj hgood
    have := hrej j hj
    omega
  · intro k h1 h2
    obtain ⟨r, hr⟩ := randNumGet_returns g s k h1 h2
    exact ⟨r.1, r.2.1, r.2.2, hr⟩

/-- Witness of C15: the first draw, 75, is rejected and the second, 155, gives 55. -/
theorem C15_randNumGet_range_witness :
    1 ≤ 55 ∧ 55 ≤ 60 ∧
      ∃ k, 55 = (sampleGlobals 10).rand ((sampleGlobals 10).randCalls + k) % 100 ∧
        (2 : Nat) = (sampleGlobals 10).randCalls + k + 1 ∧
        ∀ j, j < k →
          ¬ (1 ≤ (sampleGlobals 10).rand ((sampleGlobals 10).randCalls + j) % 100 ∧
            (sampleGlobals 10).rand ((sampleGlobals 10).randCalls + j) % 100 ≤ 60) :=
  (C15_randNumGet_range 2 (sampleGlobals 10) sampleTrans).1 55
    { sampleGlobals 10 with randCalls := 2 } { sampleTrans with randGenSeeded := true } rfl

/-- What `holdIn( active, (float) this->randNumGet() )` leaves when it returns. -/
theorem holdInRandom_spec (fuel : Nat) (g g1 : Globals) (s s1 : PnTrans)
    (h : PnTrans.holdInRandom fuel g s = some (g1, s1)) :
    ∃ v s0, PnTrans.randNumGet fuel g s = some (v, g1, s0) ∧ 1 ≤ v ∧ v ≤ 60 ∧
      s1 = { s with randGenSeeded := true, phase := Phase.active,
                    nextChange := Time.finite v } ∧
      g1.inPlaces = g.inPlaces := by
  unfold PnTrans.holdInRandom at h
  cases hr : PnTrans.randNumGet fuel g s with
  | none =>
    rw [hr] at h
    cases h
  | some r =>
    obtain ⟨v, g2, s2⟩ := r
    rw [hr] at h
    cases h
    obtain ⟨h1, h2, hs, hg, _⟩ := randNumGet_first fuel g _ s _ v hr
    refine ⟨v, _, rfl, h1, h2, ?_, hg⟩
    rw [hs]
    rfl

/-- With a draw of residue in 1..60 `k` calls ahead, the timer is armed within
`k + 1` draws. -/
theorem holdInRandom_returns (g : Globals) (s : PnTrans) (k : Nat)
    (h1 : 1 ≤ g.rand (g.randCalls + k) % 100) (h2 : g.rand (g.randCalls + k) % 100 ≤ 60) :
    ∃ r, PnTrans.holdInRandom (k + 1) g s = some r := by
  obtain ⟨r, hr⟩ := randNumGet_returns g s k h1 h2
  unfold PnTrans.holdInRandom
  rw [hr]
  exact ⟨_, rfl⟩

/-- A call of the external handler that returns normally, split at line 247: the
registry update returned `s0`, and then the timer was armed from `s0` or the
transition was passivated. -/
theorem externalFunction_sched (fuel : Nat) (g g1 : Globals) (s s1 : PnTrans)
    (port : TransPort) (value : Int)
    (h : PnTrans.externalFunction fuel g s port value = some (g1, Outcome.ok s1)) :
    ∃ s0, PnTrans.updateRegistry g s port value = Outcome.ok s0 ∧
      ((s0.transEnabled = true ∧ PnTrans.holdInRandom fuel g s0 = some (g1, s1)) ∨
       (s0.transEnabled = false ∧ s1 = s0.passivate ∧ g1 = g)) := by
  unfold PnTrans.externalFunction at h
  cases hu : PnTrans.updateRegistry g s port value with
  | raised s0 e =>
    rw [hu] at h
    cases h
  | ok s0 =>
    rw [hu] at h
    refine ⟨s0, rfl, ?_⟩
    by_cases hte : s0.transEnabled = true
    · simp only [hte, if_true] at h
      cases hr : PnTrans.holdInRandom fuel g s0 with
      | none =>
        rw [hr] at h
        cases h
      | some r =>
        rw [hr] at h
        cases h
        exact Or.inl ⟨hte, rfl⟩
    · simp only [hte] at h
      cases h
      exact Or.inr ⟨Bool.eq_false_iff.mpr hte, rfl, rfl⟩

/-- C12. A call of the external handler that returns normally leaves the
transition active with the delay that `randNumGet` returned, a number in 1..60,
if `transEnabled` is true, and passive with an infinite delay if it is false; the
phase and delay before the call play no part. The call does return: when the
registry update leaves `transEnabled` true and the draw `k` calls ahead has its
residue in 1..60, the call with `k + 1` draws returns normally with the timer
armed; when the update leaves `transEnabled` false, the call returns normally
without a draw, passive. -/
theorem C12_timer (fuel : Nat) (g : Globals) (s : PnTrans) (port : TransPort)
    (value : Int) :
    (∀ g1 s1, PnTrans.externalFunction fuel g s port value = some (g1, Outcome.ok s1) →
      (s1.transEnabled = true →
        s1.phase = Phase.active ∧
        ∃ v s0 s0', PnTrans.randNumGet fuel g s0 = some (v, g1, s0') ∧
          s1.nextChange = Time.finite v ∧ 1 ≤ v ∧ v ≤ 60) ∧
      (s1.transEnabled = false →
        s1.phase = Phase.passive ∧ s1.nextChange = Time.inf)) ∧
    (∀ s0, PnTrans.updateRegistry g s port value = Outcome.ok s0 → s0.transEnabled = true →
      ∀ k, 1 ≤ g.rand (g.randCalls + k) % 100 → g.rand (g.randCalls + k) % 100 ≤ 60 →
        ∃ g1 s1 v, PnTrans.externalFunction (k + 1) g s port value =
            some (g1, Outcome.ok s1) ∧
          s1.transEnabled = true ∧ s1.registry = s0.registry ∧
          s1.phase = Phase.active ∧ s1.nextChange = Time.finite v ∧ 1 ≤ v ∧ v ≤ 60) ∧
    (∀ s0, PnTrans.updateRegistry g s port value = Outcome.ok s0 → s0.transEnabled = false →
      PnTrans.externalFunction fuel g s port value = some (g, Outcome.ok s0.passivate) ∧
      (s0.passivate).phase = Phase.passive ∧ (s0.passivate).nextChange = Time.inf) := by
  refine ⟨?_, ?_, ?_⟩
  · intro g1 s1 h
    obtain ⟨s0, _, hcase⟩ := externalFunction_sched fuel g g1 s s1 port value h
    rcases hcase with ⟨hte, hh⟩ | ⟨hte, hs, _⟩
    · obtain ⟨v, s0', hr, h1, h2, hs, _⟩ := holdInRandom_spec fuel g g1 s0 s1 hh
      constructor
      · intro _
        rw [hs]
        exact ⟨rfl, v, s0, s0', hr, rfl, h1, h2⟩
      · intro hf
        rw [hs] at hf
        have : s0.transEnabled = false := hf
        rw [hte] at this
        cases this
    · constructor
      · intro ht
        rw [hs] at ht
        have : s0.transEnabled = true := ht
        rw [hte] at this
        cases this
      · intro _
        rw [hs]
        exact ⟨rfl, rfl⟩
  · intro s0 hu hte k h1 h2
    obtain ⟨r, hr⟩ := holdInRandom_returns g s0 k h1 h2
    obtain ⟨g1, s1⟩ := r
    obtain ⟨v, _, _, hv1, hv2, hs, _⟩ := holdInRandom_spec (k + 1) g g1 s0 s1 hr
    refine ⟨g1, s1, v, ?_, ?_, ?_, ?_, ?_, hv1, hv2⟩
    · unfold PnTrans.externalFunction
      rw [hu]
      simp only [hte, if_true]
      rw [hr]
    · rw [hs]
      exact hte
    · rw [hs]
      rfl
    · rw [hs]
    · rw [hs]
  · intro s0 hu hte
    refine ⟨?_, rfl, rfl⟩
    unfold PnTrans.externalFunction
    rw [hu]
    simp only [hte]
    rfl

/-- Witness of C12: a fresh transition receives 12002 on `in2`; the registry
update leaves it enabled, the first draw, 75, is rejected and the second gives
55: the call returns with the transition active. -/
theorem C12_timer_witness :
    ∃ g1 s1 v, PnTrans.externalFunction (1 + 1) (sampleGlobals 10) sampleTrans TransPort.in2
        12002 = some (g1, Outcome.ok s1) ∧
      s1.transEnabled = true ∧
      s1.registry = (PnTrans.registry
        { sampleTrans with
          pArrayStart := Function.update sampleTrans.pArrayStart 0
            { placeId := 12, arcWidth := 2, enabled := true },
          transEnabled := true, numOfInputs := 1 }) ∧
      s1.phase = Phase.active ∧ s1.nextChange = Time.finite v ∧ 1 ≤ v ∧ v ≤ 60 :=
  (C12_timer 0 (sampleGlobals 10) sampleTrans TransPort.in2 12002).2.1
    { sampleTrans with
      pArrayStart := Function.update sampleTrans.pArrayStart 0
        { placeId := 12, arcWidth := 2, enabled := true },
      transEnabled := true, numOfInputs := 1 }
    rfl rfl 1 (by decide) (by decide)

/-! ## Firing: the output and internal functions of the transition -/

/-- The loop of the output function sends one value per cell, in order. -/
theorem firedLoop_eq_map (f : Nat → inputPlaceInfo) :
    ∀ (k i : Nat), PnTrans.firedLoop f k i =
      (cells f i k).map (fun r => (TransOut.fired, PnTrans.firedValue r)) := by
  intro k
  induction k with
  | zero =>
    intro i
    rfl
  | succ k ih =>
    intro i
    unfold PnTrans.firedLoop
    rw [ih (i + 1), cells_succ, List.map_cons]

/-- The value sent on `fired` for a record is `placeId*1000 + arcWidth` when that
sum is in the range of `unsigned int`. -/
theorem firedValue_exact (r : inputPlaceInfo)
    (h0 : 0 ≤ r.placeId * 1000 + (r.arcWidth : Int))
    (h1 : r.placeId * 1000 + (r.arcWidth : Int) < 4294967296) :
    PnTrans.firedValue r = r.placeId * 1000 + (r.arcWidth : Int) := by
  unfold PnTrans.firedValue toUnsigned wrapInt
  omega

/-- The values the output function sends, record by record. -/
theorem outputFunction_values (s : PnTrans) :
    (s.outputFunction).2 =
      [(TransOut.out1, 1), (TransOut.out2, 2), (TransOut.out3, 3), (TransOut.out4, 4)]
        ++ s.registry.map (fun r => (TransOut.fired, PnTrans.firedValue r))
        ++ (if s.registry = [] then [(TransOut.fired, 0)] else []) := by
  unfold PnTrans.outputFunction
  simp only [firedLoop_eq_map, registry_eq_cells]
  by_cases h0 : s.numOfInputs = 0
  · have hnil : cells s.pArrayStart 0 s.numOfInputs = [] := by
      rw [← registry_eq_cells]
      exact (List.length_eq_zero.mp (by
        unfold PnTrans.registry
        rw [List.length_map, List.length_range]
        exact h0))
    rw [if_pos h0, if_pos hnil]
  · have hne : ¬ cells s.pArrayStart 0 s.numOfInputs = [] := by
      rw [← registry_eq_cells]
      intro h
      apply h0
      have hl : s.registry.length = 0 := by rw [h]; rfl
      unfold PnTrans.registry at hl
      rw [List.length_map, List.length_range] at hl
      exact hl
    rw [if_neg h0, if_neg hne]

theorem registry_length (s : PnTrans) : s.registry.length = s.numOfInputs := by
  unfold PnTrans.registry
  rw [List.length_map, List.length_range]

theorem registry_eq_nil_iff (s : PnTrans) : s.registry = [] ↔ s.numOfInputs = 0 := by
  rw [← List.length_eq_zero, registry_length]

/-- What the internal function leaves when it returns. -/
theorem internalFunction_spec (fuel : Nat) (g g1 : Globals) (s s1 : PnTrans)
    (h : PnTrans.internalFunction fuel g s = some (g1, s1)) :
    s1.registry = s.registry ∧ s1.numOfInputs = s.numOfInputs ∧
      s1.pArrayStart = s.pArrayStart ∧ s1.transEnabled = s.transEnabled ∧
      g1.inPlaces = g.inPlaces ∧
      (s.numOfInputs = 0 →
        s1.phase = Phase.active ∧ ∃ v, s1.nextChange = Time.finite v ∧ 1 ≤ v ∧ v ≤ 60) ∧
      (s.numOfInputs ≠ 0 → s1.phase = Phase.passive ∧ s1.nextChange = Time.inf) := by
  unfold PnTrans.internalFunction at h
  by_cases h0 : s.numOfInputs = 0
  · rw [if_pos h0] at h
    obtain ⟨v, s0, _, h1, h2, hs, hg⟩ := holdInRandom_spec fuel g g1 s s1 h
    rw [hs]
    exact ⟨rfl, rfl, rfl, rfl, hg, fun _ => ⟨rfl, v, rfl, h1, h2⟩, fun hne => absurd h0 hne⟩
  · rw [if_neg h0] at h
    cases h
    exact ⟨rfl, rfl, rfl, rfl, rfl, fun he => absurd he h0, fun _ => ⟨rfl, rfl⟩⟩

/-- A source transition that has fired at least once is armed, and is still a
source. -/
theorem fire_source (fuel : Nat) :
    ∀ (n : Nat) (g g1 : Globals) (s s1 : PnTrans), s.numOfInputs = 0 →
      PnTrans.fire fuel (n + 1) g s = some (g1, s1) →
      s1.numOfInputs = 0 ∧ s1.phase = Phase.active ∧
        ∃ v, s1.nextChange = Time.finite v ∧ 1 ≤ v ∧ v ≤ 60 := by
  intro n
  induction n with
  | zero =>
    intro g g1 s s1 h0 h
    unfold PnTrans.fire at h
    cases hi : PnTrans.internalFunction fuel g (s.outputFunction).1 with
    | none =>
      rw [hi] at h
      cases h
    | some r =>
      obtain ⟨g2, s2⟩ := r
      rw [hi] at h
      unfold PnTrans.fire at h
      cases h
      obtain ⟨_, hn, _, _, _, hsrc, _⟩ := internalFunction_spec fuel g _ _ _ hi
      have h0' : (s.outputFunction).1.numOfInputs = 0 := h0
      exact ⟨by rw [hn]; exact h0', hsrc h0'⟩
  | succ n ih =>
    intro g g1 s s1 h0 h
    unfold PnTrans.fire at h
    cases hi : PnTrans.internalFunction fuel g (s.outputFunction).1 with
    | none =>
      rw [hi] at h
      cases h
    | some r =>
      obtain ⟨g2, s2⟩ := r
      rw [hi] at h
      obtain ⟨_, hn, _⟩ := internalFunction_spec fuel g g2 _ s2 hi
      have h0' : (s.outputFunction).1.numOfInputs = 0 := h0
      exact ih g2 g1 s2 s1 (by rw [hn]; exact h0') h

/-- C14. When the internal function returns: the registry is unchanged; with an
empty registry the transition is active with a delay in 1..60, otherwise it is
passive with an infinite delay. With a non-empty registry it always returns, and
with an empty one it returns once the generator draws a residue in 1..60. A
source transition that has fired `n + 1` times is still armed, for every `n`. -/
theorem C14_internal_function (fuel : Nat) (g : Globals) (s : PnTrans) :
    (∀ g1 s1, PnTrans.internalFunction fuel g s = some (g1, s1) →
      s1.registry = s.registry ∧ s1.numOfInputs = s.numOfInputs ∧
      (s.numOfInputs = 0 →
        s1.phase = Phase.active ∧ ∃ v, s1.nextChange = Time.finite v ∧ 1 ≤ v ∧ v ≤ 60) ∧
      (s.numOfInputs ≠ 0 → s1.phase = Phase.passive ∧ s1.nextChange = Time.inf)) ∧
    (s.numOfInputs ≠ 0 → PnTrans.internalFunction fuel g s = some (g, s.passivate)) ∧
    (∀ k, 1 ≤ g.rand (g.randCalls + k) % 100 → g.rand (g.randCalls + k) % 100 ≤ 60 →
      ∃ r, PnTrans.internalFunction (k + 1) g s = some r) ∧
    (∀ n g1 s1, s.numOfInputs = 0 → PnTrans.fire fuel (n + 1) g s = some (g1, s1) →
      s1.numOfInputs = 0 ∧ s1.phase = Phase.active ∧
        ∃ v, s1.nextChange = Time.finite v ∧ 1 ≤ v ∧ v ≤ 60) := by
  refine ⟨?_, ?_, ?_, ?_⟩
  · intro g1 s1 h
    obtain ⟨hr, hn, _, _, _, hsrc, hpas⟩ := internalFunction_spec fuel g g1 s s1 h
    exact ⟨hr, hn, hsrc, hpas⟩
  · intro hne
    unfold PnTrans.internalFunction
    rw [if_neg hne]
  · intro k h1 h2
    unfold PnTrans.internalFunction
    by_cases h0 : s.numOfInputs = 0
    · rw [if_pos h0]
      exact holdInRandom_returns g s k h1 h2
    · rw [if_neg h0]
      exact ⟨_, rfl⟩
  · intro n g1 s1 h0 h
    exact fire_source fuel n g g1 s s1 h0 h

/-- Witness of C14: a fresh source transition fires twice; the delays drawn are 55
and then 35, and it is left active with delay 35. -/
theorem C14_internal_function_witness :
    (PnTrans.mk false 0 true sampleTrans.pArrayStart Phase.active (Time.finite 35) 10).numOfInputs
        = 0 ∧
      (PnTrans.mk false 0 true sampleTrans.pArrayStart Phase.active (Time.finite 35) 10).phase
        = Phase.active ∧
      ∃ v, (PnTrans.mk false 0 true sampleTrans.pArrayStart Phase.active
          (Time.finite 35) 10).nextChange = Time.finite v ∧ 1 ≤ v ∧ v ≤ 60 :=
  (C14_internal_function 2 (sampleGlobals 10) sampleTrans).2.2.2 1
    { sampleGlobals 10 with randCalls := 3 }
    (PnTrans.mk false 0 true sampleTrans.pArrayStart Phase.active (Time.finite 35) 10) rfl rfl

/-! ## Places and transitions wired together -/

/-- C16, as stated, fails for a place whose id is 0: the deposit 3 sent to place 0
holding 5 tokens is handled as a withdrawal and leaves 2, not 8; and the deposit
1 sent to place 0 holding no token makes the handler throw. It also fails when
the sum does not fit an `int`: place 7 holding 2147483647 tokens receives the
deposit 1 and is left with -2147483648 tokens. -/
theorem C16_counterexample_id_zero :
    PnPlace.externalFunction ⟨5, 0, Phase.passive, Time.inf⟩ PlacePort.inPort 3 =
        Outcome.ok ⟨2, 0, Phase.active, Time.finite 0⟩ ∧
      (2 : Int) ≠ 5 + 3 ∧
      PnPlace.externalFunction ⟨0, 0, Phase.passive, Time.inf⟩ PlacePort.inPort 1 =
        Outcome.raised ⟨0, 0, Phase.passive, Time.inf⟩ (MException.insufficientTokens 1 0) ∧
      PnPlace.externalFunction ⟨2147483647, 7, Phase.passive, Time.inf⟩ PlacePort.inPort 1 =
        Outcome.ok ⟨-2147483648, 7, Phase.active, Time.finite 0⟩ ∧
      (-2147483648 : Int) ≠ 2147483647 + 1 := by
  decide

/-- C16, amended. For every place whose id is not 0 and every token count `t`
that is an `int` with `t + k < 2^31`, a deposit `k` in 1..4, as a transition sends
on `out1`..`out4`, is handled without a throw and leaves exactly `t + k` tokens. -/
theorem C16_deposit_reaches_place (s : PnPlace) (k : Nat)
    (hp : s.placeId ≠ 0) (h1 : 1 ≤ k) (h4 : k ≤ 4)
    (hlo : -2147483648 ≤ s.numOfTokens) (hhi : s.numOfTokens + (k : Int) < 2147483648) :
    ∃ s1, s.externalFunction PlacePort.inPort (k : Int) = Outcome.ok s1 ∧
      s1.numOfTokens = s.numOfTokens + (k : Int) ∧ s1.placeId = s.placeId := by
  have hd : k / 1000 = 0 := by omega
  rw [externalFunction_natCast s k (by omega), hd]
  have hne : ¬ (((0 : Nat) : Int) = s.placeId) := fun h => hp h.symm
  rw [if_neg hne, if_pos rfl]
  exact ⟨_, rfl, wrapInt_of_range _ (by omega) hhi, rfl⟩

/-- Witness of the amended C16: place 7 holding 5 tokens receives the deposit 3. -/
theorem C16_deposit_reaches_place_witness :
    ∃ s1, PnPlace.externalFunction ⟨5, 7, Phase.passive, Time.inf⟩ PlacePort.inPort
        ((3 : Nat) : Int) = Outcome.ok s1 ∧
      s1.numOfTokens = (5 : Int) + ((3 : Nat) : Int) ∧ s1.placeId = 7 :=
  C16_deposit_reaches_place ⟨5, 7, Phase.passive, Time.inf⟩ 3 (by decide) (by decide)
    (by decide) (by decide) (by decide)

theorem updFirst_length (pid : Int) (en : Bool) (l : List inputPlaceInfo) :
    (updFirst pid en l).length = l.length := by
  induction l with
  | nil => rfl
  | cons r rs ih =>
    unfold updFirst
    by_cases hr : r.placeId = pid
    · rw [if_pos hr]
      rfl
    · rw [if_neg hr, List.length_cons, List.length_cons, ih]

/-- Position by position, `updFirst` keeps the place id and the arc width of every
record, and keeps whole every record of another place. -/
theorem updFirst_getElem (pid : Int) (en : Bool) (l : List inputPlaceInfo) :
    ∀ (i : Nat) (r : inputPlaceInfo), l[i]? = some r →
      ∃ r1, (updFirst pid en l)[i]? = some r1 ∧ r1.placeId = r.placeId ∧
        r1.arcWidth = r.arcWidth ∧ (r.placeId ≠ pid → r1 = r) := by
  induction l with
  | nil =>
    intro i r h
    cases h
  | cons a as ih =>
    intro i r h
    unfold updFirst
    by_cases ha : a.placeId = pid
    · rw [if_pos ha]
      cases i with
      | zero =>
        rw [List.getElem?_cons_zero] at h
        cases h
        exact ⟨_, List.getElem?_cons_zero, rfl, rfl, fun hne => absurd ha hne⟩
      | succ n =>
        rw [List.getElem?_cons_succ] at h
        exact ⟨r, by rw [List.getElem?_cons_succ]; exact h, rfl, rfl, fun _ => rfl⟩
    · rw [if_neg ha]
      cases i with
      | zero =>
        rw [List.getElem?_cons_zero] at h
        cases h
        exact ⟨_, List.getElem?_cons_zero, rfl, rfl, fun _ => rfl⟩
      | succ n =>
        rw [List.getElem?_cons_succ] at h
        obtain ⟨r1, h1, h2, h3, h4⟩ := ih n r h
        exact ⟨r1, by rw [List.getElem?_cons_succ]; exact h1, h2, h3, h4⟩

/-- The registry after a call of the external handler that returns normally: the
old one with the flag of the advertising place rewritten, or the old one with the
record of the advertising place appended. -/
theorem externalFunction_registry (fuel : Nat) (g g1 : Globals) (s s1 : PnTrans)
    (port : TransPort) (value : Int)
    (h : PnTrans.externalFunction fuel g s port value = some (g1, Outcome.ok s1)) :
    (hasPlace (decodeId value) s.registry = true ∧
      s1.numOfInputs = s.numOfInputs ∧
      s1.registry = updFirst (decodeId value)
        (PnTrans.arcEnabled (PnTrans.arcWidthOf port)
          (decodeTokens value)) s.registry) ∨
    (hasPlace (decodeId value) s.registry = false ∧
      s.numOfInputs ≠ g.inPlaces ∧ s1.numOfInputs = s.numOfInputs + 1 ∧
      s1.registry = s.registry ++
        [{ placeId := decodeId value, arcWidth := PnTrans.arcWidthOf port,
           enabled := PnTrans.arcEnabled (PnTrans.arcWidthOf port)
             (decodeTokens value) }]) := by
  obtain ⟨s0, hu, hreg, hcount, _⟩ := externalFunction_ok fuel g g1 s s1 port value h
  cases hp : hasPlace (decodeId value) s.registry with
  | true =>
    obtain ⟨s0', hu', hreg', hcount', _⟩ := updateRegistry_known g s port value hp
    rw [hu] at hu'
    cases hu'
    exact Or.inl ⟨rfl, by rw [hcount, hcount'], by rw [hreg, hreg']⟩
  | false =>
    have hne : s.numOfInputs ≠ g.inPlaces := by
      intro hc
      obtain ⟨s0', hu', _⟩ := updateRegistry_overflow g s port value hp hc
      rw [hu] at hu'
      cases hu'
    obtain ⟨s0', hu', hreg', hcount', _⟩ := updateRegistry_new g s port value hp hne
    rw [hu] at hu'
    cases hu'
    exact Or.inr ⟨rfl, hne, by rw [hcount, hcount'], by rw [hreg, hreg']⟩

/-- C17. After a call of the external handler that returns normally on an
advertisement of place `q = trunc(value/1000)`, the new registry is `kept ++
extra`, where `extra` holds at most one record, of place `q`, and `kept` has the
length of the old registry and matches it position by position: same place id
and same arc width everywhere, and the same record wherever the place is not `q`,
whatever port the advertisement came in on. -/
theorem C17_registry_append_only (fuel : Nat) (g g1 : Globals) (s s1 : PnTrans)
    (port : TransPort) (value : Int)
    (h : PnTrans.externalFunction fuel g s port value = some (g1, Outcome.ok s1)) :
    ∃ kept extra, s1.registry = kept ++ extra ∧
      kept.length = s.registry.length ∧ extra.length ≤ 1 ∧
      (∀ r ∈ extra, r.placeId = decodeId value) ∧
      (∀ (i : Nat) (r : inputPlaceInfo), s.registry[i]? = some r →
        ∃ r1, kept[i]? = some r1 ∧ s1.registry[i]? = some r1 ∧
          r1.placeId = r.placeId ∧ r1.arcWidth = r.arcWidth ∧
          (r.placeId ≠ decodeId value → r1 = r)) := by
  rcases externalFunction_registry fuel g g1 s s1 port value h with
    ⟨_, _, hreg⟩ | ⟨_, _, _, hreg⟩
  · refine ⟨s1.registry, [], by rw [List.append_nil], ?_, Nat.zero_le 1, ?_, ?_⟩
    · rw [hreg, updFirst_length]
    · intro r hr
      cases hr
    · intro i r hi
      rw [hreg]
      obtain ⟨r1, h1, h2, h3, h4⟩ := updFirst_getElem (decodeId value) _ s.registry i r hi
      exact ⟨r1, h1, h1, h2, h3, h4⟩
  · refine ⟨s.registry, _, hreg, rfl, Nat.le_refl 1, ?_, ?_⟩
    · intro r hr
      rw [List.mem_singleton] at hr
      rw [hr]
    · intro i r hi
      refine ⟨r, hi, ?_, rfl, rfl, fun _ => rfl⟩
      have hlt : i < s.registry.length := by
        rcases Nat.lt_or_ge i s.registry.length with hlt | hge
        · exact hlt
        · rw [List.getElem?_eq_none hge] at hi
          cases hi
      rw [hreg, List.getElem?_append_left hlt]
      exact hi

/-- Witness of C17: the registry holds the width-2 record of place 12 and the
width-0 record of place 5; place 12 advertises one token on `in1`. Its record
keeps width 2 and is now enabled by the width-1 test; the record of place 5 is
untouched. -/
theorem C17_registry_append_only_witness :
    ∃ kept extra,
      [({ placeId := 12, arcWidth := 2, enabled := true } : inputPlaceInfo),
        { placeId := 5, arcWidth := 0, enabled := true }] = kept ++ extra ∧
      kept.length =
        [({ placeId := 12, arcWidth := 2, enabled := false } : inputPlaceInfo),
          { placeId := 5, arcWidth := 0, enabled := true }].length ∧
      extra.length ≤ 1 :=
  (C17_registry_append_only 2
    (sampleGlobals 10) { sampleGlobals 10 with randCalls := 2 }
    { sampleTrans with
      numOfInputs := 2,
      pArrayStart := Function.update
        (Function.update sampleTrans.pArrayStart 0
          { placeId := 12, arcWidth := 2, enabled := false })
        1 { placeId := 5, arcWidth := 0, enabled := true } }
    { transEnabled := true, numOfInputs := 2, randGenSeeded := true,
      pArrayStart := Function.update
        (Function.update
          (Function.update sampleTrans.pArrayStart 0
            { placeId := 12, arcWidth := 2, enabled := false })
          1 { placeId := 5, arcWidth := 0, enabled := true })
        0 { placeId := 12, arcWidth := 2, enabled := true },
      phase := Phase.active, nextChange := Time.finite 55, allocated := 10 }
    TransPort.in1 12001 rfl).imp
    (fun _ hk => hk.imp (fun _ he => ⟨he.1, he.2.1, he.2.2.1⟩))

/-- C19. A place with id `p` and `t` tokens advertises the `int` sum of `p*1000`
and `min(t, 999)`; when that sum fits an `int` it is `p*1000 + min(t, 999)` and
the transition decodes the payload `min(t, 999)` from it; and on every input port
the enabling test on the payload `min(t, 999)` has the value it has on the true
count `t`. -/
theorem C19_clamp_keeps_enabling (p t : Nat) (ph : Phase) (nc : Time) (port : TransPort) :
    (PnPlace.outputFunction ⟨(t : Int), (p : Int), ph, nc⟩).2 =
        [(PlaceOut.out, wrapInt (wrapInt ((p : Int) * 1000) + ((min t 999 : Nat) : Int)))] ∧
      (p * 1000 + min t 999 < 2147483648 →
        (PnPlace.outputFunction ⟨(t : Int), (p : Int), ph, nc⟩).2 =
          [(PlaceOut.out, ((p * 1000 + min t 999 : Nat) : Int))] ∧
        decodeTokens ((p * 1000 + min t 999 : Nat) : Int) = min t 999) ∧
      PnTrans.arcWidthOf port ≤ 4 ∧
      PnTrans.arcEnabled (PnTrans.arcWidthOf port) (min t 999) =
        PnTrans.arcEnabled (PnTrans.arcWidthOf port) t := by
  refine ⟨?_, ?_, ?_, ?_⟩
  · have hmin : (if (t : Int) > 999 then (999 : Int) else (t : Int)) =
        ((min t 999 : Nat) : Int) := by
      by_cases h : t > 999
      · have h1 : (t : Int) > 999 := by omega
        rw [if_pos h1, Nat.min_eq_right (by omega)]
        rfl
      · have h1 : ¬ (t : Int) > 999 := by omega
        rw [if_neg h1, Nat.min_eq_left (by omega)]
    show [(PlaceOut.out, wrapInt (wrapInt ((p : Int) * 1000) +
      (if (t : Int) > 999 then 999 else (t : Int))))] = _
    rw [hmin]
  · intro hb
    exact ⟨place_output_natCast p t ph nc hb, (decode_advert p (min t 999) (by omega) hb).2⟩
  · cases port <;> decide
  · have hw : PnTrans.arcWidthOf port ≤ 4 := by cases port <;> decide
    rw [arcEnabled_eq, arcEnabled_eq]
    congr 1
    apply propext
    omega

/-- Witness of C19: place 3 holding 1200 tokens advertises 3999, from which the
transition decodes 999 tokens. -/
theorem C19_clamp_keeps_enabling_witness :
    (PnPlace.outputFunction ⟨((1200 : Nat) : Int), ((3 : Nat) : Int), Phase.passive,
        Time.inf⟩).2 = [(PlaceOut.out, ((3 * 1000 + min 1200 999 : Nat) : Int))] ∧
      decodeTokens ((3 * 1000 + min 1200 999 : Nat) : Int) = min 1200 999 :=
  (C19_clamp_keeps_enabling 3 1200 Phase.passive Time.inf TransPort.in2).2.1 (by decide)

/-- C20, as stated, fails when the message value does not fit an `int`: place
5000000 holding 10 tokens receives 5000000*1000; the conversion `(int)` gives
`INT_MIN`, the amount decoded is -648 and the place is left with 658 tokens. -/
theorem C20_counterexample_value_out_of_int :
    PnPlace.externalFunction ⟨10, 5000000, Phase.passive, Time.inf⟩ PlacePort.inPort
        ((5000000 * 1000 : Nat) : Int) =
      Outcome.ok ⟨658, 5000000, Phase.active, Time.finite 0⟩ ∧
    (0 : Int) ≤ 10 ∧ (658 : Int) ≠ 10 := by
  decide

/-- C20, amended. A message `q*1000`, of payload zero, that fits an `int` changes
no token count: whatever the id of the place and for every count `t` with
`0 ≤ t < 2^31`, the handler returns normally and the count and the id are as
before. -/
theorem C20_zero_payload_removes_nothing (s : PnPlace) (q : Nat)
    (hq : q * 1000 < 2147483648)
    (ht : 0 ≤ s.numOfTokens) (hhi : s.numOfTokens < 2147483648) :
    ∃ s1, s.externalFunction PlacePort.inPort ((q * 1000 : Nat) : Int) = Outcome.ok s1 ∧
      s1.numOfTokens = s.numOfTokens ∧ s1.placeId = s.placeId := by
  have hd : q * 1000 / 1000 = q := by omega
  have hm : q * 1000 % 1000 = 0 := by omega
  rw [externalFunction_natCast s (q * 1000) hq, hd, hm]
  by_cases h1 : ((q : Nat) : Int) = s.placeId
  · rw [if_pos h1, if_pos (by simpa using ht)]
    refine ⟨_, rfl, ?_, rfl⟩
    show wrapInt (s.numOfTokens - ((0 : Nat) : Int)) = s.numOfTokens
    rw [wrapInt_of_range _ (by omega) (by omega)]
    omega
  · rw [if_neg h1]
    by_cases h0 : q = 0
    · rw [if_pos h0, h0]
      refine ⟨_, rfl, ?_, rfl⟩
      show wrapInt (s.numOfTokens + ((0 * 1000 : Nat) : Int)) = s.numOfTokens
      rw [wrapInt_of_range _ (by omega) (by omega)]
      omega
    · rw [if_neg h0]
      exact ⟨_, rfl, rfl, rfl⟩

/-- Witness of the amended C20: place 5 holding 3 tokens handles 5000, the fired
message of an inhibitor arc from place 5. -/
theorem C20_zero_payload_removes_nothing_witness :
    ∃ s1, PnPlace.externalFunction ⟨3, 5, Phase.passive, Time.inf⟩ PlacePort.inPort
        ((5 * 1000 : Nat) : Int) = Outcome.ok s1 ∧
      s1.numOfTokens = 3 ∧ s1.placeId = 5 :=
  C20_zero_payload_removes_nothing ⟨3, 5, Phase.passive, Time.inf⟩ 5 (by decide) (by decide)
    (by decide)

/-! ## The capacity of the registry -/

/-- A throw of the external handler leaves the count one above `inPlaces`: the
test of line 210 held and line 213 incremented the count. -/
theorem externalFunction_raised_count (fuel : Nat) (g g1 : Globals) (s s1 : PnTrans)
    (port : TransPort) (value : Int) (e : MException)
    (h : PnTrans.externalFunction fuel g s port value = some (g1, Outcome.raised s1 e)) :
    g1 = g ∧ s.numOfInputs = g.inPlaces ∧ s1.numOfInputs = g.inPlaces + 1 ∧
      s1.registry = s.registry ++ [s.pArrayStart s.numOfInputs] ∧
      hasPlace (decodeId value) s.registry = false := by
  rw [externalFunction_raised] at h
  obtain ⟨hu, hg⟩ := h
  cases hp : hasPlace (decodeId value) s.registry with
  | true =>
    obtain ⟨s0, hu', _⟩ := updateRegistry_known g s port value hp
    rw [hu] at hu'
    cases hu'
  | false =>
    by_cases hc : s.numOfInputs = g.inPlaces
    · obtain ⟨_, h2, _⟩ := scanLoop_unmatched (decodeId value) (PnTrans.arcWidthOf port)
        (decodeTokens value) s.numOfInputs 0
        { pArray := s.pArrayStart, placeIdMatch := false, transEnabled := true } rfl
      have hp' := hp
      rw [registry_eq_cells] at hp'
      simp only [] at h2
      rw [hp'] at h2
      have hframe := scanLoop_frame (decodeId value) (PnTrans.arcWidthOf port)
        (decodeTokens value) s.numOfInputs 0
        { pArray := s.pArrayStart, placeIdMatch := false, transEnabled := true }
      obtain ⟨h1, _, _⟩ := scanLoop_unmatched (decodeId value) (PnTrans.arcWidthOf port)
        (decodeTokens value) s.numOfInputs 0
        { pArray := s.pArrayStart, placeIdMatch := false, transEnabled := true } rfl
      simp only [] at h1
      rw [updFirst_of_not_hasPlace _ _ _ hp'] at h1
      simp only [PnTrans.updateRegistry, h2, Bool.not_false, if_true, if_pos hc] at hu
      cases hu
      refine ⟨hg, hc, by rw [← hc], ?_, rfl⟩
      rw [registry_eq_cells, registry_eq_cells]
      show cells _ 0 (s.numOfInputs + 1) = _
      rw [cells_concat, h1]
      congr 2
      exact hframe s.numOfInputs (Or.inr (by omega))
    · obtain ⟨s0, hu', _⟩ := updateRegistry_new g s port value hp hc
      rw [hu] at hu'
      cases hu'

/-- One call keeps `inPlaces`; from a count within `inPlaces`, a normal return
leaves the count within `inPlaces` and a throw leaves it at `inPlaces + 1`. -/
theorem step_capacity (fuel : Nat) (g g1 : Globals) (s : PnTrans) (c : PnTrans.Call)
    (r : Outcome PnTrans) (hinv : s.numOfInputs ≤ g.inPlaces)
    (h : PnTrans.step fuel g s c = some (g1, r)) :
    g1.inPlaces = g.inPlaces ∧
      (∀ s1, r = Outcome.ok s1 → s1.numOfInputs ≤ g.inPlaces) ∧
      (∀ s1 e, r = Outcome.raised s1 e → s1.numOfInputs = g.inPlaces + 1) := by
  cases c with
  | init =>
    unfold PnTrans.step PnTrans.initFunction at h
    cases hi : PnTrans.holdInRandom fuel g s with
    | none =>
      rw [hi] at h
      cases h
    | some p =>
      obtain ⟨g2, s2⟩ := p
      rw [hi] at h
      cases h
      obtain ⟨v, s0, _, _, _, hs, hg⟩ := holdInRandom_spec fuel g _ s _ hi
      refine ⟨hg, ?_, ?_⟩
      · intro s1 hs1
        cases hs1
        rw [hs]
        exact hinv
      · intro s1 e hs1
        cases hs1
  | ext port value =>
    unfold PnTrans.step at h
    cases r with
    | ok s1 =>
      have hg : g1.inPlaces = g.inPlaces := by
        obtain ⟨s0, _, hcase⟩ := externalFunction_sched fuel g g1 s s1 port value h
        rcases hcase with ⟨_, hh⟩ | ⟨_, _, hg⟩
        · obtain ⟨_, _, _, _, _, _, hg⟩ := holdInRandom_spec fuel g g1 s0 s1 hh
          exact hg
        · rw [hg]
      refine ⟨hg, ?_, ?_⟩
      · intro s2 hs2
        cases hs2
        rcases externalFunction_registry fuel g g1 s s1 port value h with
          ⟨_, hcount, _⟩ | ⟨_, hne, hcount, _⟩
        · rw [hcount]
          exact hinv
        · rw [hcount]
          omega
      · intro s2 e hs2
        cases hs2
    | raised s1 e =>
      obtain ⟨hg, _, hcount, _⟩ := externalFunction_raised_count fuel g g1 s s1 port value e h
      refine ⟨by rw [hg], ?_, ?_⟩
      · intro s2 hs2
        cases hs2
      · intro s2 e2 hs2
        cases hs2
        exact hcount
  | int =>
    unfold PnTrans.step at h
    cases hi : PnTrans.internalFunction fuel g s with
    | none =>
      rw [hi] at h
      cases h
    | some p =>
      obtain ⟨g2, s2⟩ := p
      rw [hi] at h
      cases h
      obtain ⟨_, hn, _, _, hg, _⟩ := internalFunction_spec fuel g _ s _ hi
      refine ⟨hg, ?_, ?_⟩
      · intro s1 hs1
        cases hs1
        rw [hn]
        exact hinv
      · intro s1 e hs1
        cases hs1
  | out =>
    unfold PnTrans.step at h
    cases h
    refine ⟨rfl, ?_, ?_⟩
    · intro s1 hs1
      cases hs1
      exact hinv
    · intro s1 e hs1
      cases hs1

/-- The capacity invariant along a run of one transition. -/
theorem run_capacity (fuel : Nat) (calls : List PnTrans.Call) :
    ∀ (g g1 : Globals) (s : PnTrans) (r : Outcome PnTrans), s.numOfInputs ≤ g.inPlaces →
      PnTrans.run fuel g s calls = some (g1, r) →
      g1.inPlaces = g.inPlaces ∧
        (∀ s1, r = Outcome.ok s1 → s1.numOfInputs ≤ g.inPlaces) ∧
        (∀ s1 e, r = Outcome.raised s1 e → s1.numOfInputs = g.inPlaces + 1) := by
  induction calls with
  | nil =>
    intro g g1 s r hinv h
    unfold PnTrans.run at h
    cases h
    refine ⟨rfl, ?_, ?_⟩
    · intro s1 hs1
      cases hs1
      exact hinv
    · intro s1 e hs1
      cases hs1
  | cons c cs ih =>
    intro g g1 s r hinv h
    unfold PnTrans.run at h
    cases hst : PnTrans.step fuel g s c with
    | none =>
      rw [hst] at h
      cases h
    | some p =>
      obtain ⟨g2, r2⟩ := p
      obtain ⟨hg2, hok, hraised⟩ := step_capacity fuel g g2 s c r2 hinv hst
      cases r2 with
      | ok s2 =>
        rw [hst] at h
        have hinv2 : s2.numOfInputs ≤ g2.inPlaces := by
          rw [hg2]
          exact hok s2 rfl
        obtain ⟨hg1, hok1, hraised1⟩ := ih g2 g1 s2 r hinv2 h
        rw [hg2] at hg1 hok1 hraised1
        exact ⟨hg1, hok1, hraised1⟩
      | raised s2 e2 =>
        rw [hst] at h
        cases h
        exact ⟨hg2, hok, hraised⟩

/-- C11, as stated, fails in two ways. In the state a throw leaves: a transition
constructed with capacity 1 registers place 12, then the advertisement of the
unseen place 5 makes the handler throw, and the count in that state is 2. And
without a throw, once another transition has been constructed: A is constructed
with capacity 1, then B with capacity 3; A registers place 12 and then place 5,
both calls return normally, and the count of A is 2. -/
theorem C11_counterexample_count_after_throw :
    (∃ g1 s1 e,
      PnTrans.run 2 (PnTrans.new (sampleGlobals 10) (some 1) sampleTrans).1
          (PnTrans.new (sampleGlobals 10) (some 1) sampleTrans).2
          [PnTrans.Call.ext TransPort.in2 12002, PnTrans.Call.ext TransPort.in0 5000] =
        some (g1, Outcome.raised s1 e) ∧
      (PnTrans.new (sampleGlobals 10) (some 1) sampleTrans).1.inPlaces = 1 ∧
      s1.numOfInputs = 2 ∧ ¬ s1.numOfInputs ≤ 1) ∧
    (∃ g1 s1,
      PnTrans.run 2
          (PnTrans.new (PnTrans.new (sampleGlobals 10) (some 1) sampleTrans).1 (some 3)
            sampleTrans).1
          (PnTrans.new (sampleGlobals 10) (some 1) sampleTrans).2
          [PnTrans.Call.ext TransPort.in2 12002, PnTrans.Call.ext TransPort.in0 5000] =
        some (g1, Outcome.ok s1) ∧
      (PnTrans.new (sampleGlobals 10) (some 1) sampleTrans).2.allocated = 1 ∧
      s1.allocated = 1 ∧ s1.numOfInputs = 2 ∧ ¬ s1.numOfInputs ≤ 1) :=
  ⟨⟨_, _, _, rfl, rfl, rfl, by decide⟩, ⟨_, _, rfl, rfl, rfl, rfl, by decide⟩⟩

/-- C11, amended. A transition is constructed with capacity `c` (the parameter
`inputplaces`, or 10 without it), and any sequence of calls of the init,
external, internal and output functions is made on it while no other transition
is constructed, so that the shared `inPlaces` is still `c`. In every state
reached by calls that all returned normally the count is at most `c`; the call
that throws the exception leaves the count at exactly `c + 1`. -/
theorem C11_capacity_invariant (fuel : Nat) (g g1 : Globals) (inputplaces : Option Nat)
    (junk : PnTrans) (calls : List PnTrans.Call) (r : Outcome PnTrans)
    (h : PnTrans.run fuel (PnTrans.new g inputplaces junk).1 (PnTrans.new g inputplaces junk).2
      calls = some (g1, r)) :
    (PnTrans.new g inputplaces junk).1.inPlaces = inputplaces.getD 10 ∧
      (PnTrans.new g inputplaces junk).2.allocated = inputplaces.getD 10 ∧
      (PnTrans.new g inputplaces junk).2.numOfInputs = 0 ∧
      g1.inPlaces = inputplaces.getD 10 ∧
      (∀ s1, r = Outcome.ok s1 → s1.numOfInputs ≤ inputplaces.getD 10) ∧
      (∀ s1 e, r = Outcome.raised s1 e → s1.numOfInputs = inputplaces.getD 10 + 1) := by
  have hc : (PnTrans.new g inputplaces junk).1.inPlaces = inputplaces.getD 10 := by
    cases inputplaces <;> rfl
  have ha : (PnTrans.new g inputplaces junk).2.allocated = inputplaces.getD 10 := by
    cases inputplaces <;> rfl
  have h0 : (PnTrans.new g inputplaces junk).2.numOfInputs = 0 := rfl
  obtain ⟨hg, hok, hraised⟩ := run_capacity fuel calls _ g1 _ r (by rw [h0]; exact Nat.zero_le _) h
  rw [hc] at hg hok hraised
  exact ⟨hc, ha, h0, hg, hok, hraised⟩

/-- Witness of the amended C11: a transition of capacity 10 is initialised,
receives 12002 on `in2`, fires (output, then internal function) and is left with
one record. -/
theorem C11_capacity_invariant_witness :
    (PnTrans.mk true 1 true
        (Function.update sampleTrans.pArrayStart 0 { placeId := 12, arcWidth := 2, enabled := true })
        Phase.passive Time.inf 10).numOfInputs ≤ (some 10 : Option Nat).getD 10 :=
  (C11_capacity_invariant 2 (sampleGlobals 3) { sampleGlobals 10 with randCalls := 3 }
    (some 10) sampleTrans
    [PnTrans.Call.init, PnTrans.Call.ext TransPort.in2 12002, PnTrans.Call.out,
      PnTrans.Call.int]
    (Outcome.ok (PnTrans.mk true 1 true
      (Function.update sampleTrans.pArrayStart 0 { placeId := 12, arcWidth := 2, enabled := true })
      Phase.passive Time.inf 10))
    rfl).2.2.2.2.1 _ rfl

/-- C18 fails on the code: `inPlaces` is one variable for all transitions. With A
constructed with capacity 2 and then B with capacity 1, `inPlaces` is 1, and A,
holding the single record of place 12, throws on the advertisement of the unseen
place 5. With A constructed with capacity 1 and then B with capacity 3, A takes
the record of place 5 as its second record without a throw. -/
theorem C18_capacity_shared_between_instances :
    (PnTrans.new (PnTrans.new (sampleGlobals 10) (some 2) sampleTrans).1 (some 1)
        sampleTrans).1.inPlaces = 1 ∧
    (∃ g1 s1,
      PnTrans.run 2
          (PnTrans.new (PnTrans.new (sampleGlobals 10) (some 2) sampleTrans).1 (some 1)
            sampleTrans).1
          (PnTrans.new (sampleGlobals 10) (some 2) sampleTrans).2
          [PnTrans.Call.ext TransPort.in2 12002, PnTrans.Call.ext TransPort.in0 5000] =
        some (g1, Outcome.raised s1 (MException.inputPlacesTooSmall 1 2))) ∧
    (∃ g1 s1,
      PnTrans.run 2
          (PnTrans.new (PnTrans.new (sampleGlobals 10) (some 1) sampleTrans).1 (some 3)
            sampleTrans).1
          (PnTrans.new (sampleGlobals 10) (some 1) sampleTrans).2
          [PnTrans.Call.ext TransPort.in2 12002, PnTrans.Call.ext TransPort.in0 5000] =
        some (g1, Outcome.ok s1) ∧
      s1.numOfInputs = 2 ∧
      s1.registry = [{ placeId := 12, arcWidth := 2, enabled := true },
                     { placeId := 5, arcWidth := 0, enabled := true }]) :=
  ⟨rfl, ⟨_, _, rfl⟩, ⟨_, _, rfl, rfl, rfl⟩⟩

/-! ## The registry along a sequence of advertisements -/

theorem placeIds_updFirst (pid : Int) (en : Bool) (l : List inputPlaceInfo) :
    placeIds (updFirst pid en l) = placeIds l := by
  induction l with
  | nil => rfl
  | cons r rs ih =>
    unfold updFirst
    by_cases hr : r.placeId = pid
    · rw [if_pos hr]
      rfl
    · rw [if_neg hr]
      unfold placeIds at ih ⊢
      rw [List.map_cons, List.map_cons, ih]

theorem hasPlace_iff_mem_placeIds (pid : Int) (l : List inputPlaceInfo) :
    hasPlace pid l = true ↔ pid ∈ placeIds l := by
  unfold hasPlace placeIds
  rw [List.any_eq_true, List.mem_map]
  constructor
  · rintro ⟨r, hr, hd⟩
    exact ⟨r, hr, of_decide_eq_true hd⟩
  · rintro ⟨r, hr, hd⟩
    exact ⟨r, hr, decide_eq_true hd⟩

/-- The place ids of the registry after a call of the external handler that
returns normally: unchanged when the advertising place was known, and with its id
appended when it was not. -/
theorem externalFunction_placeIds (fuel : Nat) (g g1 : Globals) (s s1 : PnTrans)
    (port : TransPort) (value : Int)
    (h : PnTrans.externalFunction fuel g s port value = some (g1, Outcome.ok s1)) :
    (decodeId value ∈ placeIds s.registry ∧ placeIds s1.registry = placeIds s.registry) ∨
    (decodeId value ∉ placeIds s.registry ∧
      placeIds s1.registry = placeIds s.registry ++ [decodeId value]) := by
  rcases externalFunction_registry fuel g g1 s s1 port value h with
    ⟨hp, _, hreg⟩ | ⟨hp, _, _, hreg⟩
  · refine Or.inl ⟨(hasPlace_iff_mem_placeIds _ _).mp hp, ?_⟩
    rw [hreg, placeIds_updFirst]
  · refine Or.inr ⟨?_, ?_⟩
    · intro hmem
      rw [(hasPlace_iff_mem_placeIds _ _).mpr hmem] at hp
      cases hp
    · rw [hreg]
      unfold placeIds
      rw [List.map_append]
      rfl

/-- A run of advertisements that all return normally, split at its first call. -/
theorem run_adverts_cons (fuel : Nat) (g g1 : Globals) (s s1 : PnTrans)
    (m : TransPort × Int) (ms : List (TransPort × Int))
    (h : PnTrans.run fuel g s (PnTrans.adverts (m :: ms)) = some (g1, Outcome.ok s1)) :
    ∃ g2 s2, PnTrans.externalFunction fuel g s m.1 m.2 = some (g2, Outcome.ok s2) ∧
      PnTrans.run fuel g2 s2 (PnTrans.adverts ms) = some (g1, Outcome.ok s1) := by
  unfold PnTrans.adverts at h ⊢
  rw [List.map_cons] at h
  unfold PnTrans.run at h
  rw [show PnTrans.step fuel g s (PnTrans.Call.ext m.1 m.2) =
    PnTrans.externalFunction fuel g s m.1 m.2 from rfl] at h
  cases hst : PnTrans.externalFunction fuel g s m.1 m.2 with
  | none =>
    rw [hst] at h
    cases h
  | some p =>
    obtain ⟨g2, r2⟩ := p
    cases r2 with
    | ok s2 =>
      rw [hst] at h
      exact ⟨g2, s2, rfl, h⟩
    | raised s2 e =>
      rw [hst] at h
      cases h

/-- Along a run of advertisements that all return normally, the place ids of the
registry stay pairwise distinct, and they are the ids of the starting registry
together with the ids advertised. -/
theorem run_adverts_placeIds (fuel : Nat) (msgs : List (TransPort × Int)) :
    ∀ (g g1 : Globals) (s s1 : PnTrans), (placeIds s.registry).Nodup →
      PnTrans.run fuel g s (PnTrans.adverts msgs) = some (g1, Outcome.ok s1) →
      (placeIds s1.registry).Nodup ∧
        ∀ x, x ∈ placeIds s1.registry ↔
          (x ∈ placeIds s.registry ∨ x ∈ PnTrans.advertisedIds msgs) := by
  induction msgs with
  | nil =>
    intro g g1 s s1 hnd h
    unfold PnTrans.adverts at h
    rw [List.map_nil] at h
    unfold PnTrans.run at h
    cases h
    refine ⟨hnd, ?_⟩
    intro x
    unfold PnTrans.advertisedIds
    simp
  | cons m ms ih =>
    intro g g1 s s1 hnd h
    obtain ⟨g2, s2, hstep, hrest⟩ := run_adverts_cons fuel g g1 s s1 m ms h
    have hids := externalFunction_placeIds fuel g g2 s s2 m.1 m.2 hstep
    have hnd2 : (placeIds s2.registry).Nodup := by
      rcases hids with ⟨_, he⟩ | ⟨hnot, he⟩
      · rw [he]
        exact hnd
      · rw [he]
        apply List.Nodup.append hnd (List.nodup_singleton _)
        intro x hx hx1
        rw [List.mem_singleton] at hx1
        rw [hx1] at hx
        exact hnot hx
    obtain ⟨hnd1, hmem1⟩ := ih g2 g1 s2 s1 hnd2 hrest
    refine ⟨hnd1, ?_⟩
    intro x
    rw [hmem1 x]
    unfold PnTrans.advertisedIds
    rw [List.map_cons, List.mem_cons]
    rcases hids with ⟨hin, he⟩ | ⟨_, he⟩
    · rw [he]
      constructor
      · rintro (hx | hx)
        · exact Or.inl hx
        · exact Or.inr (Or.inr hx)
      · rintro (hx | hx | hx)
        · exact Or.inl hx
        · rw [hx]
          exact Or.inl hin
        · exact Or.inr hx
    · rw [he, List.mem_append, List.mem_singleton]
      constructor
      · rintro ((hx | hx) | hx)
        · exact Or.inl hx
        · exact Or.inr (Or.inl hx)
        · exact Or.inr (Or.inr hx)
      · rintro (hx | hx | hx)
        · exact Or.inl (Or.inl hx)
        · exact Or.inl (Or.inr hx)
        · exact Or.inr hx

/-- C21. Starting from an empty registry, after any sequence of advertisements,
on any ports, whose calls of the external handler all return normally, the place
ids of the registry records are pairwise distinct, they are exactly the ids
advertised, and the count `numOfInputs` is the number of distinct ids
advertised. -/
theorem C21_distinct_place_ids (fuel : Nat) (g g1 : Globals) (s s1 : PnTrans)
    (msgs : List (TransPort × Int)) (h0 : s.numOfInputs = 0)
    (h : PnTrans.run fuel g s (PnTrans.adverts msgs) = some (g1, Outcome.ok s1)) :
    (placeIds s1.registry).Nodup ∧
      List.Pairwise (fun r1 r2 => r1.placeId ≠ r2.placeId) s1.registry ∧
      (∀ x, x ∈ placeIds s1.registry ↔ x ∈ PnTrans.advertisedIds msgs) ∧
      s1.numOfInputs = (PnTrans.advertisedIds msgs).dedup.length := by
  have hnil : s.registry = [] := (registry_eq_nil_iff s).mpr h0
  have hnd0 : (placeIds s.registry).Nodup := by
    rw [hnil]
    exact List.nodup_nil
  obtain ⟨hnd, hmem⟩ := run_adverts_placeIds fuel msgs g g1 s s1 hnd0 h
  have hmem1 : ∀ x, x ∈ placeIds s1.registry ↔ x ∈ PnTrans.advertisedIds msgs := by
    intro x
    rw [hmem x, hnil]
    simp [placeIds]
  refine ⟨hnd, ?_, hmem1, ?_⟩
  · unfold placeIds at hnd
    unfold List.Nodup at hnd
    rw [List.pairwise_map] at hnd
    exact hnd
  · have hperm : List.Perm (placeIds s1.registry) (PnTrans.advertisedIds msgs).dedup := by
      rw [List.perm_ext_iff_of_nodup hnd (List.nodup_dedup _)]
      intro x
      rw [hmem1 x, List.mem_dedup]
    rw [← hperm.length_eq, ← registry_length]
    unfold placeIds
    rw [List.length_map]

/-- Witness of C21: a fresh transition receives 12002 on `in2`, 5000 on `in0` and
12001 on `in1`; two distinct places advertised, two records. -/
theorem C21_distinct_place_ids_witness :
    (PnTrans.mk true 2 true
        (Function.update
          (Function.update
            (Function.update sampleTrans.pArrayStart 0
              { placeId := 12, arcWidth := 2, enabled := true })
            1 { placeId := 5, arcWidth := 0, enabled := true })
          0 { placeId := 12, arcWidth := 2, enabled := true })
        Phase.active (Time.finite 15) 10).numOfInputs =
      (PnTrans.advertisedIds
        [(TransPort.in2, 12002), (TransPort.in0, 5000), (TransPort.in1, 12001)]).dedup.length :=
  (C21_distinct_place_ids 2 (sampleGlobals 10) { sampleGlobals 10 with randCalls := 4 }
    sampleTrans
    (PnTrans.mk true 2 true
      (Function.update
        (Function.update
          (Function.update sampleTrans.pArrayStart 0
            { placeId := 12, arcWidth := 2, enabled := true })
          1 { placeId := 5, arcWidth := 0, enabled := true })
        0 { placeId := 12, arcWidth := 2, enabled := true })
      Phase.active (Time.finite 15) 10)
    [(TransPort.in2, 12002), (TransPort.in0, 5000), (TransPort.in1, 12001)] rfl rfl).2.2.2

/-! ## Firing against the place that enabled the arc -/

theorem recordsOf_cons (p : Int) (r : inputPlaceInfo) (l : List inputPlaceInfo) :
    recordsOf p (r :: l) = if r.placeId = p then r :: recordsOf p l else recordsOf p l := by
  unfold recordsOf
  by_cases h : r.placeId = p
  · simp [List.filter_cons, h]
  · simp [List.filter_cons, h]

theorem recordsOf_append (p : Int) (l1 l2 : List inputPlaceInfo) :
    recordsOf p (l1 ++ l2) = recordsOf p l1 ++ recordsOf p l2 := by
  unfold recordsOf
  rw [List.filter_append]

theorem recordsOf_eq_nil_iff (p : Int) (l : List inputPlaceInfo) :
    recordsOf p l = [] ↔ hasPlace p l = false := by
  rw [hasPlace_eq_false_iff]
  unfold recordsOf
  rw [List.filter_eq_nil_iff]
  constructor
  · intro h r hr hp
    exact h r hr (decide_eq_true hp)
  · intro h r hr hd
    exact h r hr (of_decide_eq_true hd)

/-- Rewriting the flag of another place leaves the records of place `p` alone. -/
theorem recordsOf_updFirst_ne (p pid : Int) (en : Bool) (l : List inputPlaceInfo)
    (hne : pid ≠ p) : recordsOf p (updFirst pid en l) = recordsOf p l := by
  induction l with
  | nil => rfl
  | cons r rs ih =>
    unfold updFirst
    by_cases hr : r.placeId = pid
    · rw [if_pos hr, recordsOf_cons, recordsOf_cons]
      have h1 : ¬ r.placeId = p := fun h => hne (hr.symm.trans h)
      rw [if_neg h1, if_neg h1]
    · rw [if_neg hr, recordsOf_cons, recordsOf_cons, ih]

/-- Rewriting the flag of place `p` when it has a single record. -/
theorem recordsOf_updFirst_self (p : Int) (en : Bool) (r0 : inputPlaceInfo)
    (l : List inputPlaceInfo) (h : recordsOf p l = [r0]) :
    recordsOf p (updFirst p en l) = [{ r0 with enabled := en }] := by
  induction l with
  | nil => cases h
  | cons r rs ih =>
    unfold updFirst
    rw [recordsOf_cons] at h
    by_cases hr : r.placeId = p
    · rw [if_pos hr] at h
      rw [if_pos hr, recordsOf_cons, if_pos hr]
      injection h with h1 h2
      rw [h1, h2]
    · rw [if_neg hr] at h
      rw [if_neg hr, recordsOf_cons, if_neg hr]
      exact ih h

/-- An advertisement of another place leaves the records of place `p` alone. -/
theorem externalFunction_recordsOf_other (fuel : Nat) (g g1 : Globals) (s s1 : PnTrans)
    (port : TransPort) (value : Int) (p : Int) (hne : decodeId value ≠ p)
    (h : PnTrans.externalFunction fuel g s port value = some (g1, Outcome.ok s1)) :
    recordsOf p s1.registry = recordsOf p s.registry := by
  rcases externalFunction_registry fuel g g1 s s1 port value h with
    ⟨_, _, hreg⟩ | ⟨_, _, _, hreg⟩
  · rw [hreg, recordsOf_updFirst_ne p _ _ _ hne]
  · rw [hreg, recordsOf_append, recordsOf_cons, if_neg hne]
    exact List.append_nil _

/-- An advertisement of place `p` on the port of width `w`, when the registry has
no record of `p` or a single one of width `w`: afterwards it has the single
record of width `w` whose flag is the enabling test on the advertised payload. -/
theorem externalFunction_recordsOf_self (fuel : Nat) (g g1 : Globals) (s s1 : PnTrans)
    (port : TransPort) (value : Int)
    (hinv : recordsOf (decodeId value) s.registry = [] ∨
      ∃ e, recordsOf (decodeId value) s.registry =
        [{ placeId := decodeId value, arcWidth := PnTrans.arcWidthOf port, enabled := e }])
    (h : PnTrans.externalFunction fuel g s port value = some (g1, Outcome.ok s1)) :
    recordsOf (decodeId value) s1.registry =
      [{ placeId := decodeId value, arcWidth := PnTrans.arcWidthOf port,
         enabled := PnTrans.arcEnabled (PnTrans.arcWidthOf port)
           (decodeTokens value) }] := by
  rcases externalFunction_registry fuel g g1 s s1 port value h with
    ⟨hp, _, hreg⟩ | ⟨hp, _, _, hreg⟩
  · rcases hinv with hnil | ⟨e, he⟩
    · rw [(recordsOf_eq_nil_iff _ _).mp hnil] at hp
      cases hp
    · rw [hreg, recordsOf_updFirst_self _ _ _ _ he]
  · rw [hreg, recordsOf_append, (recordsOf_eq_nil_iff _ _).mpr hp, recordsOf_cons, if_pos rfl]
    rfl

/-- A run of advertisements that all return normally, split in two. -/
theorem run_adverts_append (fuel : Nat) (a b : List (TransPort × Int)) :
    ∀ (g g1 : Globals) (s s1 : PnTrans),
      PnTrans.run fuel g s (PnTrans.adverts (a ++ b)) = some (g1, Outcome.ok s1) →
      ∃ g2 s2, PnTrans.run fuel g s (PnTrans.adverts a) = some (g2, Outcome.ok s2) ∧
        PnTrans.run fuel g2 s2 (PnTrans.adverts b) = some (g1, Outcome.ok s1) := by
  induction a with
  | nil =>
    intro g g1 s s1 h
    exact ⟨g, s, rfl, h⟩
  | cons m ms ih =>
    intro g g1 s s1 h
    rw [List.cons_append] at h
    obtain ⟨g2, s2, hstep, hrest⟩ := run_adverts_cons fuel g g1 s s1 m (ms ++ b) h
    obtain ⟨g3, s3, ha, hb⟩ := ih g2 g1 s2 s1 hrest
    refine ⟨g3, s3, ?_, hb⟩
    unfold PnTrans.adverts
    rw [List.map_cons]
    unfold PnTrans.run
    rw [show PnTrans.step fuel g s (PnTrans.Call.ext m.1 m.2) =
      PnTrans.externalFunction fuel g s m.1 m.2 from rfl, hstep]
    exact ha

/-- Advertisements of other places leave the records of place `p` alone. -/
theorem run_adverts_recordsOf_other (fuel : Nat) (p : Int) (msgs : List (TransPort × Int)) :
    ∀ (g g1 : Globals) (s s1 : PnTrans), (∀ m ∈ msgs, decodeId m.2 ≠ p) →
      PnTrans.run fuel g s (PnTrans.adverts msgs) = some (g1, Outcome.ok s1) →
      recordsOf p s1.registry = recordsOf p s.registry := by
  induction msgs with
  | nil =>
    intro g g1 s s1 _ h
    unfold PnTrans.adverts at h
    rw [List.map_nil] at h
    unfold PnTrans.run at h
    cases h
    rfl
  | cons m ms ih =>
    intro g g1 s s1 hall h
    obtain ⟨g2, s2, hstep, hrest⟩ := run_adverts_cons fuel g g1 s s1 m ms h
    rw [ih g2 g1 s2 s1 (fun m1 hm1 => hall m1 (List.mem_cons_of_mem _ hm1)) hrest]
    exact externalFunction_recordsOf_other fuel g g2 s s2 m.1 m.2 p
      (hall m (List.mem_cons_self _ _)) hstep

/-- When every advertisement of place `p` arrives on the same port, the registry
keeps holding no record of `p` or a single one, of the width of that port. -/
theorem run_adverts_recordsOf_port (fuel : Nat) (p : Int) (port : TransPort)
    (msgs : List (TransPort × Int)) :
    ∀ (g g1 : Globals) (s s1 : PnTrans),
      (∀ m ∈ msgs, decodeId m.2 = p → m.1 = port) →
      (recordsOf p s.registry = [] ∨
        ∃ e, recordsOf p s.registry =
          [{ placeId := p, arcWidth := PnTrans.arcWidthOf port, enabled := e }]) →
      PnTrans.run fuel g s (PnTrans.adverts msgs) = some (g1, Outcome.ok s1) →
      (recordsOf p s1.registry = [] ∨
        ∃ e, recordsOf p s1.registry =
          [{ placeId := p, arcWidth := PnTrans.arcWidthOf port, enabled := e }]) := by
  induction msgs with
  | nil =>
    intro g g1 s s1 _ hinv h
    unfold PnTrans.adverts at h
    rw [List.map_nil] at h
    unfold PnTrans.run at h
    cases h
    exact hinv
  | cons m ms ih =>
    intro g g1 s s1 hall hinv h
    obtain ⟨g2, s2, hstep, hrest⟩ := run_adverts_cons fuel g g1 s s1 m ms h
    apply ih g2 g1 s2 s1 (fun m1 hm1 => hall m1 (List.mem_cons_of_mem _ hm1)) _ hrest
    by_cases hm : decodeId m.2 = p
    · have hport : m.1 = port := hall m (List.mem_cons_self _ _) hm
      right
      rw [← hm, ← hport] at hinv
      have hself := externalFunction_recordsOf_self fuel g g2 s s2 m.1 m.2 hinv hstep
      rw [hm, hport] at hself
      exact ⟨_, hself⟩
    · rw [externalFunction_recordsOf_other fuel g g2 s s2 m.1 m.2 p hm hstep]
      exact hinv

/-- The output function sends, for every record of the registry, its fired
message. -/
theorem outputFunction_fired_mem (s : PnTrans) (r : inputPlaceInfo) (hr : r ∈ s.registry) :
    (TransOut.fired, PnTrans.firedValue r) ∈ (s.outputFunction).2 := by
  rw [outputFunction_values]
  apply List.mem_append_left
  apply List.mem_append_right
  exact List.mem_map.mpr ⟨r, hr, rfl⟩

/-- An enabled arc of width at most 4 asks for no more than the place holds, when
the payload tested is the clamped count of the place. -/
theorem arcEnabled_clamped_le (w t : Nat) (h : PnTrans.arcEnabled w (min t 999) = true) :
    w ≤ t := by
  rw [arcEnabled_eq] at h
  have := of_decide_eq_true h
  omega

/-- A place with id `p` holding `t < 2^31` tokens handles the fired message
`p*1000 + w < 2^31` of an arc of width `w ≤ 4` with `w ≤ t`: no throw, and `t - w`
tokens are left. -/
theorem place_handles_fired (p t w : Nat) (ph : Phase) (nc : Time) (hw : w ≤ 4) (hle : w ≤ t)
    (hb : p * 1000 + w < 2147483648) (ht : t < 2147483648) :
    ∃ pl1, PnPlace.externalFunction ⟨(t : Int), (p : Int), ph, nc⟩ PlacePort.inPort
        ((p : Int) * 1000 + (w : Int)) = Outcome.ok pl1 ∧
      pl1.numOfTokens = (t : Int) - (w : Int) ∧ 0 ≤ pl1.numOfTokens ∧ pl1.placeId = (p : Int) := by
  have hcast : (p : Int) * 1000 + (w : Int) = ((p * 1000 + w : Nat) : Int) := by
    push_cast
    rfl
  have hd : (p * 1000 + w) / 1000 = p := by omega
  have hm : (p * 1000 + w) % 1000 = w := by omega
  rw [hcast, externalFunction_natCast _ (p * 1000 + w) hb, hd, hm]
  have hle1 : ((w : Nat) : Int) ≤ (t : Int) := by omega
  rw [if_pos rfl, if_pos hle1]
  have hwrap : wrapInt ((t : Int) - ((w : Nat) : Int)) = (t : Int) - (w : Int) :=
    wrapInt_of_range _ (by omega) (by omega)
  refine ⟨_, rfl, hwrap, ?_, rfl⟩
  show 0 ≤ wrapInt ((t : Int) - ((w : Nat) : Int))
  rw [hwrap]
  omega

/-- C22, as stated, fails when `p*1000 + min(t, 999)` does not fit an `int`.
Place 2147484 holding 5 tokens advertises -2147483291, not 2147484005. And a fresh
transition that receives 2147484005 on `in1` records place 2147484 enabled (the
payload decoded is 4294966648) and, fired, sends 2147484001; the place, still
holding 5 tokens, decodes the amount -648 from it and is left with 653 tokens,
not 4. -/
theorem C22_counterexample_advert_out_of_int :
    (PnPlace.outputFunction ⟨((5 : Nat) : Int), ((2147484 : Nat) : Int), Phase.passive,
        Time.inf⟩).2 = [(PlaceOut.out, -2147483291)] ∧
    (∃ g1 s1, PnTrans.externalFunction 2 (sampleGlobals 10) sampleTrans TransPort.in1
        ((2147484 * 1000 + min 5 999 : Nat) : Int) = some (g1, Outcome.ok s1) ∧
      recordsOf ((2147484 : Nat) : Int) s1.registry =
        [{ placeId := 2147484, arcWidth := 1, enabled := true }] ∧
      (s1.outputFunction).2 =
        [(TransOut.out1, 1), (TransOut.out2, 2), (TransOut.out3, 3), (TransOut.out4, 4),
         (TransOut.fired, ((2147484 : Nat) : Int) * 1000 + ((1 : Nat) : Int))]) ∧
    PnPlace.externalFunction ⟨((5 : Nat) : Int), ((2147484 : Nat) : Int), Phase.passive,
        Time.inf⟩ PlacePort.inPort (((2147484 : Nat) : Int) * 1000 + ((1 : Nat) : Int)) =
      Outcome.ok ⟨653, 2147484, Phase.active, Time.finite 0⟩ ∧
    (653 : Int) ≠ ((5 : Nat) : Int) - ((1 : Nat) : Int) :=
  ⟨by decide, ⟨_, _, rfl, rfl, rfl⟩, by decide, by decide⟩

/-- C22, amended. Place `p` holds `t < 2^31` tokens and `p*1000 + min(t, 999)`
fits an `int`; the place advertises that value. A transition whose registry has
no record of `p` handles advertisements that all return normally: first some in
which every advertisement of `p` arrives on the port of width `w`, then this
advertisement of `p` on that port, then some of other places only. Then the
registry holds exactly one record of `p`, of width `w`, with `enabled` the
enabling test on `min(t, 999)`; and when it is enabled, the output function sends
`p*1000 + w` on `fired`, and the place, still holding `t` tokens, handles that
message without a throw and is left with exactly `t - w` tokens. -/
theorem C22_enabled_arc_never_overwithdraws (fuel : Nat) (g g1 : Globals) (s s1 : PnTrans)
    (before after : List (TransPort × Int)) (port : TransPort) (p t : Nat)
    (ph : Phase) (nc : Time)
    (hb : p * 1000 + min t 999 < 2147483648) (ht : t < 2147483648)
    (hnew : ∀ r ∈ s.registry, r.placeId ≠ (p : Int))
    (hbefore : ∀ m ∈ before, decodeId m.2 = (p : Int) → m.1 = port)
    (hafter : ∀ m ∈ after, decodeId m.2 ≠ (p : Int))
    (hrun : PnTrans.run fuel g s
      (PnTrans.adverts (before ++ (port, ((p * 1000 + min t 999 : Nat) : Int)) :: after)) =
        some (g1, Outcome.ok s1)) :
    (PnPlace.outputFunction ⟨(t : Int), (p : Int), ph, nc⟩).2 =
        [(PlaceOut.out, ((p * 1000 + min t 999 : Nat) : Int))] ∧
      recordsOf (p : Int) s1.registry =
        [{ placeId := (p : Int), arcWidth := PnTrans.arcWidthOf port,
           enabled := PnTrans.arcEnabled (PnTrans.arcWidthOf port) (min t 999) }] ∧
      (PnTrans.arcEnabled (PnTrans.arcWidthOf port) (min t 999) = true →
        (TransOut.fired, (p : Int) * 1000 + (PnTrans.arcWidthOf port : Int)) ∈
            (s1.outputFunction).2 ∧
          ∃ pl1, PnPlace.externalFunction ⟨(t : Int), (p : Int), ph, nc⟩ PlacePort.inPort
              ((p : Int) * 1000 + (PnTrans.arcWidthOf port : Int)) = Outcome.ok pl1 ∧
            pl1.numOfTokens = (t : Int) - (PnTrans.arcWidthOf port : Int) ∧
            0 ≤ pl1.numOfTokens) := by
  obtain ⟨hq, hnt⟩ := decode_advert p (min t 999) (by omega) hb
  obtain ⟨g2, s2, hrun1, hrun2⟩ := run_adverts_append fuel before _ g g1 s s1 hrun
  obtain ⟨g3, s3, hstep, hrun3⟩ := run_adverts_cons fuel g2 g1 s2 s1 _ after hrun2
  have h0 : recordsOf (p : Int) s.registry = [] :=
    (recordsOf_eq_nil_iff _ _).mpr ((hasPlace_eq_false_iff _ _).mpr hnew)
  have h2 := run_adverts_recordsOf_port fuel (p : Int) port before g g2 s s2 hbefore
    (Or.inl h0) hrun1
  have h3 : recordsOf (p : Int) s3.registry =
      [{ placeId := (p : Int), arcWidth := PnTrans.arcWidthOf port,
         enabled := PnTrans.arcEnabled (PnTrans.arcWidthOf port) (min t 999) }] := by
    have hself := externalFunction_recordsOf_self fuel g2 g3 s2 s3 port
      ((p * 1000 + min t 999 : Nat) : Int) (by rw [hq]; exact h2) hstep
    rw [hq, hnt] at hself
    exact hself
  have h1 : recordsOf (p : Int) s1.registry =
      [{ placeId := (p : Int), arcWidth := PnTrans.arcWidthOf port,
         enabled := PnTrans.arcEnabled (PnTrans.arcWidthOf port) (min t 999) }] := by
    rw [run_adverts_recordsOf_other fuel (p : Int) after g3 g1 s3 s1 hafter hrun3]
    exact h3
  refine ⟨place_output_natCast p t ph nc hb, h1, ?_⟩
  intro hen
  have hw : PnTrans.arcWidthOf port ≤ 4 := by cases port <;> decide
  have hle : PnTrans.arcWidthOf port ≤ t := arcEnabled_clamped_le _ t hen
  have hbw : p * 1000 + PnTrans.arcWidthOf port < 2147483648 := by omega
  constructor
  · have hsub : ∀ r, r ∈ recordsOf (p : Int) s1.registry → r ∈ s1.registry := by
      intro r hr
      unfold recordsOf at hr
      exact (List.mem_filter.mp hr).1
    have hmem := hsub _ (by rw [h1]; exact List.mem_singleton.mpr rfl)
    have hfired := outputFunction_fired_mem s1 _ hmem
    rw [firedValue_exact _ (by show 0 ≤ (p : Int) * 1000 + (PnTrans.arcWidthOf port : Int); omega)
      (by show (p : Int) * 1000 + (PnTrans.arcWidthOf port : Int) < 4294967296; omega)] at hfired
    exact hfired
  · obtain ⟨pl1, hpl, htok, hnn, _⟩ := place_handles_fired p t (PnTrans.arcWidthOf port) ph nc hw
      hle hbw ht
    exact ⟨pl1, hpl, htok, hnn⟩

/-- Witness of the amended C22: place 12 holds 7 tokens. A fresh transition receives 5000 on
`in0`, then 12007 on `in2`, then 5003 on `in0`. The record of place 12 has width 2
and is enabled, and the place handles the fired message 12002 and is left with 5
tokens. -/
theorem C22_enabled_arc_never_overwithdraws_witness :
    ∃ pl1, PnPlace.externalFunction ⟨((7 : Nat) : Int), ((12 : Nat) : Int), Phase.passive, Time.inf⟩
        PlacePort.inPort (((12 : Nat) : Int) * 1000 + (PnTrans.arcWidthOf TransPort.in2 : Int)) =
          Outcome.ok pl1 ∧
      pl1.numOfTokens = ((7 : Nat) : Int) - (PnTrans.arcWidthOf TransPort.in2 : Int) ∧
      0 ≤ pl1.numOfTokens :=
  ((C22_enabled_arc_never_overwithdraws 2 (sampleGlobals 10)
    { sampleGlobals 10 with randCalls := 3 } sampleTrans
    (PnTrans.mk false 2 true
      (Function.update
        (Function.update
          (Function.update sampleTrans.pArrayStart 0
            { placeId := 5, arcWidth := 0, enabled := true })
          1 { placeId := 12, arcWidth := 2, enabled := true })
        0 { placeId := 5, arcWidth := 0, enabled := false })
      Phase.passive Time.inf 10)
    [(TransPort.in0, 5000)] [(TransPort.in0, 5003)] TransPort.in2 12 7 Phase.passive Time.inf
    (by decide) (by decide) (by decide) (by decide) (by decide) rfl).2.2 rfl).2

end PetriNet
